import Mathlib

/-!
Shallow embedding of the MyPaint `DrawingArea` canvas controller
(`src/MyPaint/DrawingArea.cpp`) together with the `ShapeBase` geometry
helpers appended to that file.  Machine integers are modelled as `Int`
(no arithmetic here ever approaches 2^31), `std::vector`/`std::stack`
as `List` (head of the list = top of the stack), and fallible index
accesses as `Option`.  Code that performs an unguarded out-of-range
`operator[]` access is modelled as returning `none`.

A few leaf functions of the shape hierarchy are not part of the
repository snapshot (only `DrawingArea.cpp` and part of `ShapeBase.cpp`
are); those are modelled from the specification and carry a doc comment
saying so.
-/

namespace MyPaint

/-- A point with integer coordinates (`QPoint`). -/
structure Pt where
  x : Int
  y : Int
deriving DecidableEq, Repr

def Pt.add (a b : Pt) : Pt := ⟨a.x + b.x, a.y + b.y⟩

def Pt.sub (a b : Pt) : Pt := ⟨a.x - b.x, a.y - b.y⟩

def Pt.neg (a : Pt) : Pt := ⟨-a.x, -a.y⟩

/-- `QPoint::manhattanLength`: `|x| + |y|`. -/
def Pt.manhattanLength (a : Pt) : Int := |a.x| + |a.y|

/-- A rectangle in Qt's `QRect` representation: stored corner
coordinates `l ≤ r`, `t ≤ b` with `width = r - l + 1` and
`height = b - t + 1`. -/
structure MyRect where
  l : Int
  t : Int
  r : Int
  b : Int
deriving DecidableEq, Repr

/-- `QRect(x, y, w, h)`. -/
def MyRect.mk4 (x y w h : Int) : MyRect := ⟨x, y, x + w - 1, y + h - 1⟩

def MyRect.width (rc : MyRect) : Int := rc.r - rc.l + 1

def MyRect.height (rc : MyRect) : Int := rc.b - rc.t + 1

/-- `QRect::isEmpty`: `l > r` or `t > b`. -/
def MyRect.isEmptyRect (rc : MyRect) : Bool := decide (rc.l > rc.r ∨ rc.t > rc.b)

/-- `QRect::center`: integer division truncating toward zero, as in C++. -/
def MyRect.center (rc : MyRect) : Pt := ⟨Int.tdiv (rc.l + rc.r) 2, Int.tdiv (rc.t + rc.b) 2⟩

def MyRect.translate (rc : MyRect) (d : Pt) : MyRect :=
  ⟨rc.l + d.x, rc.t + d.y, rc.r + d.x, rc.b + d.y⟩

/-- The default-constructed `QRect()`: position `(0,0)`, width and height `0`. -/
def MyRect.null : MyRect := ⟨0, 0, -1, -1⟩

inductive ShapeKind
  | rect
  | roundedRect
  | ellipse
  | triangle
  | pentagon
  | diamond
  | arrow
deriving DecidableEq, Repr

/-- Value-level model of a `ShapeBase` object.  Non-arrow variants are
described by their bounding `rect`; the arrow variant by its endpoints
`p1`, `p2`.  `selHandle` is `m_selectedHandleIndex` (`-1` = none).
`clone()` is a deep copy, which on this value representation is the
identity. -/
structure Shape where
  kind : ShapeKind
  rect : MyRect
  p1 : Pt
  p2 : Pt
  lineColor : Int
  lineWidth : Int
  selHandle : Int
deriving DecidableEq, Repr

def Shape.isArrow (s : Shape) : Bool := decide (s.kind = ShapeKind.arrow)

/-- Modelled from the spec: `ShapeBase::moveBy` (not in the source
snapshot) translates the shape by the delta vector. -/
def Shape.moveBy (s : Shape) (d : Pt) : Shape :=
  { s with rect := s.rect.translate d, p1 := s.p1.add d, p2 := s.p2.add d }

/-- Modelled from the spec: the variant `resize`/`setRect` methods (not
in the source snapshot) set the bounding rect of a non-arrow shape. -/
def Shape.resizeTo (s : Shape) (rc : MyRect) : Shape := { s with rect := rc }

/-- Modelled from the spec: `ShapeBase::getArrowAnchors` (not in the
source snapshot).  Connection anchors of a non-arrow shape sit exactly
at the four edge midpoints of the bounding rect, enumerated in the same
top/bottom/left/right order as the Arrow-trigger handles; an arrow
offers no anchors. -/
def Shape.anchorCenters (s : Shape) : List Pt :=
  if s.kind = ShapeKind.arrow then []
  else
    [⟨s.rect.center.x, s.rect.t⟩, ⟨s.rect.center.x, s.rect.b⟩,
     ⟨s.rect.l, s.rect.center.y⟩, ⟨s.rect.r, s.rect.center.y⟩]

/-- Modelled from the spec: `ShapeArrow::updateConnection` (not in the
source snapshot) nudges the given endpoint by the delta vector. -/
def Shape.updateConnection (s : Shape) (isStart : Bool) (d : Pt) : Shape :=
  if isStart then { s with p1 := s.p1.add d } else { s with p2 := s.p2.add d }

/-- `ShapeArrow::setP1` / `setP2`, selected by a flag. -/
def Shape.setEndpoint (s : Shape) (isStart : Bool) (p : Pt) : Shape :=
  if isStart then { s with p1 := p } else { s with p2 := p }

def Shape.endpoint (s : Shape) (isStart : Bool) : Pt :=
  if isStart then s.p1 else s.p2

/-- The `ArrowConnection` record. -/
structure ArrowConnection where
  arrowIndex : Int
  shapeIndex : Int
  handleIndex : Int
  isStartPoint : Bool
deriving DecidableEq, Repr

inductive OperationType
  | add
  | remove
  | move
  | resize
  | property
deriving DecidableEq, Repr

/-- The `HistoryAction` record.  The C++ constructor
`HistoryAction(type, index)` leaves the remaining members
default-initialised; `HistoryAction.base` mirrors that. -/
structure HistoryAction where
  type : OperationType
  shapeIndex : Int
  shape : Option Shape
  connections : List ArrowConnection
  moveDelta : Pt
  oldRect : MyRect
  newRect : MyRect
  oldLineColor : Int
  newLineColor : Int
  oldLineWidth : Int
  newLineWidth : Int
deriving DecidableEq, Repr

def HistoryAction.base (ty : OperationType) (idx : Int) : HistoryAction :=
  ⟨ty, idx, none, [], ⟨0, 0⟩, MyRect.null, MyRect.null, 0, 0, 0, 0⟩

/-- The mutable state of a `DrawingArea` relevant to the verified
claims.  `undoStack`/`redoStack` have their top at the head. -/
structure DAState where
  shapes : List Shape
  arrowConnections : List ArrowConnection
  selectedIndex : Int
  undoStack : List HistoryAction
  redoStack : List HistoryAction
  ignoreHistoryActions : Bool
  bgColor : Int
  gridSize : Int
  pageW : Int
  pageH : Int
deriving DecidableEq, Repr

/-- Guarded indexing with a C++ `int` index: the translation of an
access `v[i]` protected by `i >= 0 && i < v.size()`. -/
def idxGet? {α : Type} (l : List α) (i : Int) : Option α :=
  if 0 ≤ i then l.get? i.toNat else none

/-- Write through a C++ `int` index (only used under a bounds guard). -/
def setIdx {α : Type} (l : List α) (i : Int) (a : α) : List α :=
  if 0 ≤ i then l.set i.toNat a else l

/-- Erase through a C++ `int` index. -/
def eraseIdxInt {α : Type} (l : List α) (i : Int) : List α := l.eraseIdx i.toNat

/-! ### `ShapeBase::calculateNewRect` and `handleAnchorInteraction` -/

/-- The post-switch guard of `calculateNewRect`: a candidate rect whose
width or height would drop below 1 is discarded and the previous rect
kept. -/
def rejectDegenerate (cur nr : MyRect) : MyRect :=
  if nr.width < 1 ∨ nr.height < 1 then cur else nr

/-- `ShapeBase::calculateNewRect`: apply the pointer delta to the edge
or corner selected by `m_selectedHandleIndex` (position codes 0–7); any
other index yields the default `QRect()`. -/
def calculateNewRect (selHandle : Int) (mousePos lastMousePos : Pt) (cur : MyRect) : MyRect :=
  let d := mousePos.sub lastMousePos
  if selHandle = 0 then rejectDegenerate cur ⟨cur.l + d.x, cur.t + d.y, cur.r, cur.b⟩
  else if selHandle = 1 then rejectDegenerate cur ⟨cur.l, cur.t + d.y, cur.r, cur.b⟩
  else if selHandle = 2 then rejectDegenerate cur ⟨cur.l, cur.t + d.y, cur.r + d.x, cur.b⟩
  else if selHandle = 3 then rejectDegenerate cur ⟨cur.l + d.x, cur.t, cur.r, cur.b⟩
  else if selHandle = 4 then rejectDegenerate cur ⟨cur.l, cur.t, cur.r + d.x, cur.b⟩
  else if selHandle = 5 then rejectDegenerate cur ⟨cur.l + d.x, cur.t, cur.r, cur.b + d.y⟩
  else if selHandle = 6 then rejectDegenerate cur ⟨cur.l, cur.t, cur.r, cur.b + d.y⟩
  else if selHandle = 7 then rejectDegenerate cur ⟨cur.l, cur.t, cur.r + d.x, cur.b + d.y⟩
  else MyRect.null

/-- Modelled from the spec: the capability flag `needPlusHandles` (the
virtual is not in the source snapshot) — non-arrow shapes offer
connection anchors, arrows do not. -/
def Shape.needPlusHandles (s : Shape) : Bool := !s.isArrow

/-- Size of the list built by `ShapeBase::getHandles`: 8 scale handles,
one rotate handle, and 4 arrow-trigger handles when the shape offers
connection anchors. -/
def Shape.handleCount (s : Shape) : Nat := if s.needPlusHandles then 13 else 9

/-- `ShapeBase::handleAnchorInteraction` for a non-arrow shape,
restricted to the non-Rotate handles: the Rotate branch (handle
index 8) accumulates an `atan2` of doubles into the rotation state and
is outside this integer model, so it is reported as `none`.  All other
branches mirror the source: no selected handle or an out-of-range
handle index does nothing, otherwise `calculateNewRect` is applied and,
unless it produced an empty rect, the shape is resized. -/
def handleAnchorInteraction (s : Shape) (mousePos lastMousePos : Pt) : Option Shape :=
  if s.selHandle = -1 then some s
  else if (s.handleCount : Int) ≤ s.selHandle then some s
  else if s.selHandle = 8 then none
  else
    let nr := calculateNewRect s.selHandle mousePos lastMousePos s.rect
    if nr.isEmptyRect then some s
    else some (s.resizeTo nr)

/-! ### `DrawingArea::updateConnectedArrows`

The function runs two passes.  The first pass walks the connection list
and, for every connection bound to the moved shape, re-places the bound
arrow endpoint: onto the anchor's current position when `handleIndex`
is in range, otherwise nudged by `delta`.  The second pass walks all
other arrows: connections to the moved shape are re-applied — here the
source reads `anchors[conn.handleIndex]` **without** a bounds check, so
that access is modelled as a fault (`none`) — and endpoints lying
within 5 units of one of the moved shape's anchors without a recorded
connection get a fresh connection appended. -/

/-- One step of the first pass of `updateConnectedArrows` (source lines
1046–1086): every index access there is guarded. -/
def firstPassStep (shapeIndex : Int) (anchors : List Pt) (delta : Pt)
    (shapes : List Shape) (conn : ArrowConnection) : List Shape :=
  if conn.shapeIndex = shapeIndex then
    match idxGet? shapes conn.arrowIndex with
    | some sh =>
      if sh.isArrow then
        match idxGet? anchors conn.handleIndex with
        | some a => setIdx shapes conn.arrowIndex (sh.setEndpoint conn.isStartPoint a)
        | none => setIdx shapes conn.arrowIndex (sh.updateConnection conn.isStartPoint delta)
      else shapes
    | none => shapes
  else shapes

def firstPass (shapeIndex : Int) (anchors : List Pt) (delta : Pt)
    (shapes : List Shape) (conns : List ArrowConnection) : List Shape :=
  conns.foldl (firstPassStep shapeIndex anchors delta) shapes

/-- One step of the second pass's scan over the connection list for a
fixed arrow `i` (source lines 1107–1123).  The accumulator carries the
arrow value plus the `startPointConnected` / `endPointConnected` flags;
the anchor access `anchors[conn.handleIndex]` is unguarded in the
source, hence `none` on an out-of-range `handleIndex`. -/
def scanStep (anchors : List Pt) (i shapeIndex : Int)
    (acc : Shape × Bool × Bool) (conn : ArrowConnection) : Option (Shape × Bool × Bool) :=
  if conn.arrowIndex = i ∧ conn.shapeIndex = shapeIndex then
    match idxGet? anchors conn.handleIndex with
    | some a =>
      if conn.isStartPoint then some ({ acc.1 with p1 := a }, true, acc.2.2)
      else some ({ acc.1 with p2 := a }, acc.2.1, true)
    | none => none
  else some acc

def scanConns (anchors : List Pt) (i shapeIndex : Int) (sh : Shape)
    (conns : List ArrowConnection) : Option (Shape × Bool × Bool) :=
  conns.foldlM (scanStep anchors i shapeIndex) (sh, false, false)

/-- First anchor (with its index) within manhattan distance 5 of `p`,
in enumeration order (source lines 1128–1141 resp. 1148–1161). -/
def findAnchorWithin : Pt → Nat → List Pt → Option (Nat × Pt)
  | _, _, [] => none
  | p, j, a :: rest =>
    if (p.sub a).manhattanLength ≤ 5 then some (j, a)
    else findAnchorWithin p (j + 1) rest

/-- The heal of an unrecorded start-point connection (source lines
1126–1143): skipped when the scan saw a recorded start connection,
otherwise the first anchor within 5 units of the captured `p1` snaps
the start point and a new connection is appended. -/
def healStart (anchors : List Pt) (i : Nat) (shapeIndex : Int) (p1 : Pt) (sc : Bool)
    (sh1 : Shape) (conns : List ArrowConnection) : Shape × List ArrowConnection :=
  if sc then (sh1, conns)
  else
    match findAnchorWithin p1 0 anchors with
    | some ja => ({ sh1 with p1 := ja.2 },
        conns ++ [⟨(i : Int), shapeIndex, (ja.1 : Int), true⟩])
    | none => (sh1, conns)

/-- The heal of an unrecorded end-point connection (source lines
1146–1163), applied after the start heal. -/
def healEnd (anchors : List Pt) (i : Nat) (shapeIndex : Int) (p2 : Pt) (ec : Bool)
    (st2 : Shape × List ArrowConnection) : Shape × List ArrowConnection :=
  if ec then st2
  else
    match findAnchorWithin p2 0 anchors with
    | some ja => ({ st2.1 with p2 := ja.2 },
        st2.2 ++ [⟨(i : Int), shapeIndex, (ja.1 : Int), false⟩])
    | none => st2

/-- The body of the second pass of `updateConnectedArrows` for one
shape index `i` (source lines 1089–1164).  The endpoints `p1`, `p2`
used by the proximity checks are captured before the connection scan,
exactly as in the source. -/
def secondPassStep (shapeIndex : Int) (acc : List Shape × List ArrowConnection) (i : Nat) :
    Option (List Shape × List ArrowConnection) :=
  match acc.1.get? i with
  | none => some acc
  | some sh =>
    if !sh.isArrow ∨ (i : Int) = shapeIndex then some acc
    else
      let anchors := ((idxGet? acc.1 shapeIndex).map Shape.anchorCenters).getD []
      match scanConns anchors (i : Int) shapeIndex sh acc.2 with
      | none => none
      | some x =>
        let res := healEnd anchors i shapeIndex sh.p2 x.2.2
          (healStart anchors i shapeIndex sh.p1 x.2.1 x.1 acc.2)
        some (acc.1.set i res.1, res.2)

def secondPass (shapeIndex : Int) (shapes : List Shape) (conns : List ArrowConnection) :
    Option (List Shape × List ArrowConnection) :=
  (List.range shapes.length).foldlM (secondPassStep shapeIndex) (shapes, conns)

/-- `DrawingArea::updateConnectedArrows`.  An out-of-range `shapeIndex`
returns the state unchanged (the guard at the top of the function);
`none` signals the unguarded out-of-range anchor access of the second
pass. -/
def updateConnectedArrows (shapeIndex : Int) (delta : Pt) (st : DAState) : Option DAState :=
  match idxGet? st.shapes shapeIndex with
  | none => some st
  | some target =>
    let anchors := target.anchorCenters
    let shapes1 := firstPass shapeIndex anchors delta st.shapes st.arrowConnections
    (secondPass shapeIndex shapes1 st.arrowConnections).map fun res =>
      { st with shapes := res.1, arrowConnections := res.2 }

/-! ### History recording (`recordAddShape` … `clearRedoStack`) -/

/-- `DrawingArea::recordAddShape`: skipped while replaying history or
for an out-of-range index; otherwise push an Add action holding a clone
of the shape, and clear the redo stack. -/
def recordAddShape (index : Int) (st : DAState) : DAState :=
  if st.ignoreHistoryActions then st
  else
    match idxGet? st.shapes index with
    | none => st
    | some sh =>
      { st with
        undoStack := { HistoryAction.base .add index with shape := some sh } :: st.undoStack,
        redoStack := [] }

/-- `DrawingArea::recordRemoveShape`: clone the shape and stash every
connection whose `shapeIndex` equals the removed index. -/
def recordRemoveShape (index : Int) (st : DAState) : DAState :=
  if st.ignoreHistoryActions then st
  else
    match idxGet? st.shapes index with
    | none => st
    | some sh =>
      { st with
        undoStack := { HistoryAction.base .remove index with
          shape := some sh,
          connections :=
            st.arrowConnections.filter (fun c => decide (c.shapeIndex = index)) } :: st.undoStack,
        redoStack := [] }

/-- `DrawingArea::recordMoveShape`. -/
def recordMoveShape (index : Int) (delta : Pt) (st : DAState) : DAState :=
  if st.ignoreHistoryActions then st
  else
    match idxGet? st.shapes index with
    | none => st
    | some _ =>
      { st with
        undoStack := { HistoryAction.base .move index with moveDelta := delta } :: st.undoStack,
        redoStack := [] }

/-- `DrawingArea::recordResizeShape`. -/
def recordResizeShape (index : Int) (oldRect newRect : MyRect) (st : DAState) : DAState :=
  if st.ignoreHistoryActions then st
  else
    match idxGet? st.shapes index with
    | none => st
    | some _ =>
      { st with
        undoStack := { HistoryAction.base .resize index with
          oldRect := oldRect, newRect := newRect } :: st.undoStack,
        redoStack := [] }

/-- `DrawingArea::recordPropertyChange`. -/
def recordPropertyChange (index : Int) (oldColor newColor oldWidth newWidth : Int)
    (st : DAState) : DAState :=
  if st.ignoreHistoryActions then st
  else
    match idxGet? st.shapes index with
    | none => st
    | some _ =>
      { st with
        undoStack := { HistoryAction.base .property index with
          oldLineColor := oldColor, newLineColor := newColor,
          oldLineWidth := oldWidth, newLineWidth := newWidth } :: st.undoStack,
        redoStack := [] }

/-! ### `undo` / `redo` -/

/-- Selection-index adjustment after erasing the shape at `idx`
(source lines 1528–1536 and 1683–1691). -/
def adjustSelErase (sel idx : Int) : Int :=
  if sel = idx then -1 else if sel > idx then sel - 1 else sel

/-- `DrawingArea::undo`.  The re-entrancy flag is raised while the
inverse is applied and lowered at the end; an empty stack returns at
once.  The `Move` case forwards the possible fault of
`updateConnectedArrows`. -/
def undo (st : DAState) : Option DAState :=
  match st.undoStack with
  | [] => some st
  | action :: rest =>
    let st0 := { st with undoStack := rest, ignoreHistoryActions := true }
    let applied : Option DAState :=
      match action.type with
      | .add =>
        match idxGet? st0.shapes action.shapeIndex with
        | some sh =>
          some { st0 with
            redoStack :=
              { HistoryAction.base .add action.shapeIndex with shape := some sh } :: st0.redoStack,
            shapes := eraseIdxInt st0.shapes action.shapeIndex,
            selectedIndex := adjustSelErase st0.selectedIndex action.shapeIndex }
        | none => some st0
      | .remove =>
        match action.shape with
        | some sh =>
          let insertIndex := min action.shapeIndex (st0.shapes.length : Int)
          some { st0 with
            redoStack :=
              { HistoryAction.base .remove action.shapeIndex with
                shape := some sh, connections := action.connections } :: st0.redoStack,
            arrowConnections := st0.arrowConnections ++ action.connections,
            shapes := st0.shapes.insertIdx insertIndex.toNat sh,
            selectedIndex :=
              if st0.selectedIndex ≥ insertIndex then st0.selectedIndex + 1
              else st0.selectedIndex }
        | none => some st0
      | .move =>
        match idxGet? st0.shapes action.shapeIndex with
        | some sh =>
          let delta := action.moveDelta.neg
          updateConnectedArrows action.shapeIndex delta
            { st0 with
              redoStack :=
                { HistoryAction.base .move action.shapeIndex with
                  moveDelta := action.moveDelta } :: st0.redoStack,
              shapes := setIdx st0.shapes action.shapeIndex (sh.moveBy delta) }
        | none => some st0
      | .resize =>
        match idxGet? st0.shapes action.shapeIndex with
        | some sh =>
          some { st0 with
            redoStack := action :: st0.redoStack,
            shapes := setIdx st0.shapes action.shapeIndex (sh.resizeTo action.oldRect) }
        | none => some st0
      | .property =>
        match idxGet? st0.shapes action.shapeIndex with
        | some sh =>
          some { st0 with
            redoStack := action :: st0.redoStack,
            shapes := setIdx st0.shapes action.shapeIndex
              { sh with lineColor := action.oldLineColor, lineWidth := action.oldLineWidth } }
        | none => some st0
    applied.map fun s => { s with ignoreHistoryActions := false }

/-- `DrawingArea::redo`, symmetric to `undo`. -/
def redo (st : DAState) : Option DAState :=
  match st.redoStack with
  | [] => some st
  | action :: rest =>
    let st0 := { st with redoStack := rest, ignoreHistoryActions := true }
    let applied : Option DAState :=
      match action.type with
      | .add =>
        match action.shape with
        | some sh =>
          let insertIndex := min action.shapeIndex (st0.shapes.length : Int)
          some { st0 with
            undoStack :=
              { HistoryAction.base .add action.shapeIndex with shape := some sh } :: st0.undoStack,
            shapes := st0.shapes.insertIdx insertIndex.toNat sh,
            selectedIndex :=
              if st0.selectedIndex ≥ insertIndex then st0.selectedIndex + 1
              else st0.selectedIndex }
        | none => some st0
      | .remove =>
        match idxGet? st0.shapes action.shapeIndex with
        | some _ =>
          some { st0 with
            undoStack := action :: st0.undoStack,
            shapes := eraseIdxInt st0.shapes action.shapeIndex,
            selectedIndex := adjustSelErase st0.selectedIndex action.shapeIndex }
        | none => some st0
      | .move =>
        match idxGet? st0.shapes action.shapeIndex with
        | some sh =>
          updateConnectedArrows action.shapeIndex action.moveDelta
            { st0 with
              undoStack := action :: st0.undoStack,
              shapes := setIdx st0.shapes action.shapeIndex (sh.moveBy action.moveDelta) }
        | none => some st0
      | .resize =>
        match idxGet? st0.shapes action.shapeIndex with
        | some sh =>
          some { st0 with
            undoStack := action :: st0.undoStack,
            shapes := setIdx st0.shapes action.shapeIndex (sh.resizeTo action.newRect) }
        | none => some st0
      | .property =>
        match idxGet? st0.shapes action.shapeIndex with
        | some sh =>
          some { st0 with
            undoStack := action :: st0.undoStack,
            shapes := setIdx st0.shapes action.shapeIndex
              { sh with lineColor := action.newLineColor, lineWidth := action.newLineWidth } }
        | none => some st0
    applied.map fun s => { s with ignoreHistoryActions := false }

/-! ### Canvas operations -/

/-- The model of adding a shape (the common tail of `dropEvent`,
`pasteShape` and the arrow-creation branch of `mousePressEvent`):
append, select the new shape, record the Add. -/
def addShape (sh : Shape) (st : DAState) : DAState :=
  let shapes := st.shapes ++ [sh]
  let st1 := { st with shapes := shapes, selectedIndex := (shapes.length : Int) - 1 }
  recordAddShape st1.selectedIndex st1

/-- `DrawingArea::deleteSelectedShape`: record the removal, drop every
connection touching the shape, erase it and clear the selection. -/
def deleteSelectedShape (st : DAState) : DAState :=
  if st.selectedIndex ≠ -1 ∧ st.selectedIndex < (st.shapes.length : Int) then
    let st1 := recordRemoveShape st.selectedIndex st
    { st1 with
      arrowConnections := st1.arrowConnections.filter
        (fun c => !decide (c.arrowIndex = st.selectedIndex ∨ c.shapeIndex = st.selectedIndex)),
      shapes := eraseIdxInt st1.shapes st.selectedIndex,
      selectedIndex := -1 }
  else st

/-- The plain-drag branch of `mouseMoveEvent` (source lines 619–637):
a selected non-arrow shape is moved by the pointer delta and its
connections reconciled; a selected arrow is not moved here. -/
def moveSelectedBy (delta : Pt) (st : DAState) : Option DAState :=
  match idxGet? st.shapes st.selectedIndex with
  | none => some st
  | some sh =>
    if sh.isArrow then some st
    else
      let st1 := { st with shapes := setIdx st.shapes st.selectedIndex (sh.moveBy delta) }
      updateConnectedArrows st.selectedIndex delta st1

/-- `DrawingArea::setSelectedShapeLineColor`. -/
def setSelectedShapeLineColor (color : Int) (st : DAState) : DAState :=
  match idxGet? st.shapes st.selectedIndex with
  | none => st
  | some sh =>
    if sh.lineColor = color then st
    else
      let st1 := recordPropertyChange st.selectedIndex sh.lineColor color
        sh.lineWidth sh.lineWidth st
      { st1 with shapes := setIdx st1.shapes st.selectedIndex { sh with lineColor := color } }

/-- `DrawingArea::setSelectedShapeLineWidth`. -/
def setSelectedShapeLineWidth (width : Int) (st : DAState) : DAState :=
  match idxGet? st.shapes st.selectedIndex with
  | none => st
  | some sh =>
    if sh.lineWidth = width then st
    else
      let st1 := recordPropertyChange st.selectedIndex sh.lineColor sh.lineColor
        sh.lineWidth width st
      { st1 with shapes := setIdx st1.shapes st.selectedIndex { sh with lineWidth := width } }

/-! ### Persistence (`clear`, `setPageSize`, `loadFromFile`) -/

/-- `DrawingArea::clear`: empty the shape and connection lists, drop
the selection and both history stacks. -/
def clearOp (st : DAState) : DAState :=
  { st with
    shapes := [], arrowConnections := [], selectedIndex := -1,
    undoStack := [], redoStack := [] }

/-- `DrawingArea::setPageSize`: only a differing, strictly positive
size is taken. -/
def setPageSizeOp (w h : Int) (st : DAState) : DAState :=
  if (w ≠ st.pageW ∨ h ≠ st.pageH) ∧ 0 < w ∧ 0 < h then
    { st with pageW := w, pageH := h }
  else st

/-- A successfully parsed document, as consumed by `loadFromFile`.
`shapes` holds `none` for an entry whose `type` discriminator is not
recognised (such entries are silently skipped); connections are taken
verbatim. -/
structure LoadedDoc where
  bg : Int
  grid : Int
  pageW : Int
  pageH : Int
  shapes : List (Option Shape)
  conns : List ArrowConnection
deriving DecidableEq, Repr

/-- `DrawingArea::loadFromFile`.  The input models the two fallible
external steps: `none` = the file cannot be opened, `some none` = the
bytes do not parse as JSON (`doc.isNull()`), `some (some doc)` = a
parsed document.  Only in the last case is the canvas cleared and
rebuilt. -/
def loadFromFile (input : Option (Option LoadedDoc)) (st : DAState) : Bool × DAState :=
  match input with
  | none => (false, st)
  | some none => (false, st)
  | some (some doc) =>
    let st1 := clearOp st
    let st2 := { st1 with bgColor := doc.bg, gridSize := doc.grid }
    let st3 := setPageSizeOp doc.pageW doc.pageH st2
    let st4 := { st3 with shapes := doc.shapes.filterMap id }
    let st5 := { st4 with arrowConnections := st4.arrowConnections ++ doc.conns }
    (true, st5)

/-! ### Derived notions used by the claims -/

/-- The Add action pushed by `recordAddShape` for the shape at `idx`. -/
def mkAddAction (idx : Int) (sh : Shape) : HistoryAction :=
  { HistoryAction.base .add idx with shape := some sh }

/-- `N` consecutive shape additions. -/
def addN (L : List Shape) (st : DAState) : DAState :=
  L.foldl (fun s sh => addShape sh s) st

/-- `N` consecutive undos (propagating a possible fault). -/
def undoN : Nat → DAState → Option DAState
  | 0, st => some st
  | n + 1, st => (undo st).bind (undoN n)

/-- `N` consecutive redos. -/
def redoN : Nat → DAState → Option DAState
  | 0, st => some st
  | n + 1, st => (redo st).bind (redoN n)

/-- The block of Add actions sitting on the undo stack after adding the
shapes of `L` on top of a canvas that already held `base` shapes
(newest, i.e. highest index, first). -/
def addStack (base : Nat) : List Shape → List HistoryAction
  | [] => []
  | s :: t => addStack (base + 1) t ++ [mkAddAction (base : Int) s]

/-- The block of Add actions sitting on the redo stack after undoing
that same run (lowest index first). -/
def redoAddStack (base : Nat) : List Shape → List HistoryAction
  | [] => []
  | s :: t => mkAddAction (base : Int) s :: redoAddStack (base + 1) t

/-- Does the connection bind the endpoint `(a, b)` (arrow index `a`,
`isStartPoint = b`)? -/
def matchesEndpoint (a : Int) (b : Bool) (c : ArrowConnection) : Bool :=
  decide (c.arrowIndex = a ∧ c.isStartPoint = b)

/-- Does the connection bind the endpoint `(a, b)` to the shape `s`? -/
def endpointShapeMatch (a : Int) (b : Bool) (s : Int) (c : ArrowConnection) : Bool :=
  decide (c.arrowIndex = a ∧ c.isStartPoint = b ∧ c.shapeIndex = s)

/-- The connection-list invariant stated by the specification: every
arrow endpoint has at most one active connection, and no connection's
`shapeIndex` designates an arrow. -/
def connInvB (st : DAState) : Bool :=
  st.arrowConnections.all (fun c =>
    decide ((st.arrowConnections.filter
      (matchesEndpoint c.arrowIndex c.isStartPoint)).length ≤ 1)) &&
  st.arrowConnections.all (fun c =>
    match idxGet? st.shapes c.shapeIndex with
    | some sh => !sh.isArrow
    | none => true)

/-- Invariant carried through the second pass of
`updateConnectedArrows` for the valid-handle half of the
endpoint-tracking theorem: the arrow at `a` has its `b` endpoint on the
anchor `anch`, the target shape at `s` is untouched, every connection
binding endpoint `(a, b)` to `s` resolves to that same anchor, and at
least one such connection is present. -/
def C6Inv (s a : Int) (b : Bool) (anch : Pt) (tgt : Shape)
    (acc : List Shape × List ArrowConnection) : Prop :=
  (∃ ar1, idxGet? acc.1 a = some ar1 ∧ ar1.isArrow = true ∧ ar1.endpoint b = anch) ∧
  idxGet? acc.1 s = some tgt ∧
  (∀ c2 ∈ acc.2, endpointShapeMatch a b s c2 = true →
    idxGet? tgt.anchorCenters c2.handleIndex = some anch) ∧
  (∃ c0 ∈ acc.2, endpointShapeMatch a b s c0 = true)

/-- Invariant for the delta-nudge half of the endpoint-tracking
theorem: the arrow at `a` keeps its `b` endpoint at `w`. -/
def C6Nudge (a : Int) (b : Bool) (w : Pt) (acc : List Shape × List ArrowConnection) : Prop :=
  ∃ ar1, idxGet? acc.1 a = some ar1 ∧ ar1.endpoint b = w

/-- Invariant used to show the second pass faults on a connection with
an out-of-range `handleIndex`: a real arrow sits at `a`, the target at
`s` is untouched, and the offending connection is still present. -/
def C6Fault (s a : Int) (tgt : Shape) (c : ArrowConnection)
    (acc : List Shape × List ArrowConnection) : Prop :=
  (∃ ar1, idxGet? acc.1 a = some ar1 ∧ ar1.isArrow = true) ∧
  idxGet? acc.1 s = some tgt ∧ c ∈ acc.2

/-- Statement-side companion of `calculateNewRect`, written from the
specification's words: the drag delta applied to the edge or corner
that corresponds to the scale-handle position code, with no clamping. -/
def movedRect (selHandle : Int) (d : Pt) (cur : MyRect) : MyRect :=
  if selHandle = 0 then ⟨cur.l + d.x, cur.t + d.y, cur.r, cur.b⟩
  else if selHandle = 1 then ⟨cur.l, cur.t + d.y, cur.r, cur.b⟩
  else if selHandle = 2 then ⟨cur.l, cur.t + d.y, cur.r + d.x, cur.b⟩
  else if selHandle = 3 then ⟨cur.l + d.x, cur.t, cur.r, cur.b⟩
  else if selHandle = 4 then ⟨cur.l, cur.t, cur.r + d.x, cur.b⟩
  else if selHandle = 5 then ⟨cur.l + d.x, cur.t, cur.r, cur.b + d.y⟩
  else if selHandle = 6 then ⟨cur.l, cur.t, cur.r, cur.b + d.y⟩
  else if selHandle = 7 then ⟨cur.l, cur.t, cur.r + d.x, cur.b + d.y⟩
  else cur

/-! ### Concrete canvas configurations used in counterexamples and
witnesses -/

/-- An 80×60 rectangle at the origin; its anchors are
`(39,0), (39,59), (0,29), (79,29)`. -/
def rectA : Shape := ⟨.rect, MyRect.mk4 0 0 80 60, ⟨0, 0⟩, ⟨0, 0⟩, 0, 1, -1⟩

/-- An arrow whose start point sits on `rectA`'s right anchor. -/
def arrowX : Shape := ⟨.arrow, MyRect.mk4 0 0 1 1, ⟨79, 29⟩, ⟨340, 200⟩, 0, 1, -1⟩

/-- An 80×60 rectangle whose left edge sits at `x = 90`. -/
def rectB : Shape := ⟨.rect, MyRect.mk4 90 0 80 60, ⟨0, 0⟩, ⟨0, 0⟩, 0, 1, -1⟩

/-- An arrow away from every anchor. -/
def arrowFar : Shape := ⟨.arrow, MyRect.mk4 0 0 1 1, ⟨500, 500⟩, ⟨600, 600⟩, 0, 1, -1⟩

/-- The quiescent empty canvas. -/
def emptySt : DAState := ⟨[], [], -1, [], [], false, 0, 20, 800, 600⟩

/-- Canvas reached by: drop `rectA`; drop an arrow and commit its start
point onto `rectA`'s right anchor; drop `rectB`; `rectB` is selected
and about to be dragged.  (History stacks elided; they play no role in
the connection invariant.) -/
def c1pre : DAState := ⟨[rectA, arrowX, rectB], [⟨1, 0, 3, true⟩], 2, [], [], false, 0, 20, 800, 600⟩

/-- A canvas holding a connection whose `handleIndex` (7) is out of
range for the four anchors of `rectA` — such a record is loaded
verbatim by `loadFromFile`. -/
def c2pre : DAState := ⟨[rectA, arrowFar], [⟨1, 0, 7, true⟩], -1, [], [], false, 0, 20, 800, 600⟩

/-- A canvas where the selected shape (index 1) is an arrow with a
start-point connection, i.e. a connection touching it through
`arrowIndex`. -/
def c4pre : DAState := ⟨[rectA, arrowX], [⟨1, 0, 3, true⟩], 1, [], [], false, 0, 20, 800, 600⟩

/-- A canvas carrying two start-point connections for the same arrow
endpoint, bound to anchors 0 and 3 of the same shape. -/
def c6pre : DAState :=
  ⟨[rectA, arrowFar], [⟨1, 0, 0, true⟩, ⟨1, 0, 3, true⟩], -1, [], [], false, 0, 20, 800, 600⟩

/-- A canvas used to witness the amended connection-tracking theorem:
one rectangle, one arrow, one start-point connection to anchor 3. -/
def c6w : DAState := ⟨[rectA, arrowFar], [⟨1, 0, 3, true⟩], -1, [], [], false, 0, 20, 800, 600⟩

/-- A self-referencing connection with an out-of-range handle, used to
witness the delta-nudge branch (an arrow offers no anchors, so any
handle index is out of range). -/
def c6wInvalid : DAState := ⟨[arrowFar], [⟨0, 0, 2, true⟩], -1, [], [], false, 0, 20, 800, 600⟩

/-- A canvas with a valid selection and mixed connections, used to
witness the Remove record/undo theorem. -/
def c4w : DAState :=
  ⟨[rectA, arrowX, rectB], [⟨1, 0, 3, true⟩, ⟨1, 2, 2, false⟩], 0, [], [], false, 0, 20, 800, 600⟩

/-- A parsed document used to witness the load theorems. -/
def doc0 : LoadedDoc :=
  ⟨7, 10, 640, 480, [some rectA, none, some arrowX], [⟨1, 0, 3, true⟩]⟩

/-- A canvas with history, used to witness that loading clears it. -/
def histSt : DAState :=
  ⟨[rectB], [], 0, [mkAddAction 0 rectB], [mkAddAction 0 rectA], false, 1, 20, 800, 600⟩

/-! ## Theorems -/

/-- C1: the specified connection invariant — at most one active
connection per arrow endpoint, `shapeIndex` never an arrow — is not
maintained by the code.  `c1pre` satisfies the invariant (one arrow,
its start point committed to `rectA`'s right anchor); dragging the
selected `rectB` left by 6 units brings `rectB`'s left anchor within
the 5-unit proximity radius of the already-connected start point, and
the secondary reconciliation pass of `updateConnectedArrows` — which
only checks for existing connections *to the moved shape* — appends a
second start-point connection for that same endpoint. -/
theorem reconciliation_pass_duplicates_endpoint_connection :
    connInvB c1pre = true ∧
    (moveSelectedBy ⟨-6, 0⟩ c1pre).map connInvB = some false ∧
    (moveSelectedBy ⟨-6, 0⟩ c1pre).map DAState.arrowConnections =
      some [⟨1, 0, 3, true⟩, ⟨1, 2, 2, true⟩] := by
  refine ⟨by decide, by decide, by decide⟩

/-- C2: the claim that every index access in the connection-update path
is bounds-checked fails: on a connection whose `handleIndex` (7) is out
of range for the shape's four anchors, the second pass of
`updateConnectedArrows` performs the unguarded read
`anchors[conn.handleIndex]` (source line 1117) and faults instead of
being a no-op.  The first pass survives the same record because its
access *is* guarded. -/
theorem updateConnectedArrows_unguarded_anchor_access :
    idxGet? rectA.anchorCenters 7 = none ∧
    updateConnectedArrows 0 ⟨0, 0⟩ c2pre = none := by
  refine ⟨by decide, by decide⟩

/-- C4 (counterexample): removing the arrow at index 1, which is
touched by the connection `⟨1, 0, 3, true⟩` through its `arrowIndex`,
stashes an *empty* connection list — `recordRemoveShape` only collects
connections with `shapeIndex = index` — and the subsequent undo
restores no connection at all. -/
theorem recordRemove_misses_arrowIndex_connections :
    c4pre.arrowConnections = [⟨1, 0, 3, true⟩] ∧
    (deleteSelectedShape c4pre).undoStack.map HistoryAction.connections = [[]] ∧
    (undo (deleteSelectedShape c4pre)).map DAState.arrowConnections = some [] := by
  refine ⟨by decide, by decide, by decide⟩

/-- C6 (counterexample): with two connections for the same arrow
endpoint (handles 0 and 3 of the same shape, both valid), the final
endpoint equals the anchor of the *last* connection, so the claim —
each bound endpoint equals the anchor at *its* connection's
`handleIndex` — fails for the first connection. -/
theorem endpoint_anchor_claim_fails_with_two_connections :
    endpointShapeMatch 1 true 0 ⟨1, 0, 0, true⟩ = true ∧
    idxGet? rectA.anchorCenters 0 = some ⟨39, 0⟩ ∧
    ((updateConnectedArrows 0 ⟨0, 0⟩ c6pre).bind fun s => idxGet? s.shapes 1).map Shape.p1 =
      some ⟨79, 29⟩ ∧
    (⟨79, 29⟩ : Pt) ≠ (⟨39, 0⟩ : Pt) := by
  refine ⟨by decide, by decide, by decide, by decide⟩

/-- C5: when the file cannot be opened (`none`) or its content does not
parse as JSON (`some none`), `loadFromFile` reports failure and the
entire canvas state is exactly what it was — the clear of the current
canvas only happens on the parsed-document path. -/
theorem loadFromFile_failure_preserves_state (st : DAState) :
    loadFromFile none st = (false, st) ∧ loadFromFile (some none) st = (false, st) :=
  ⟨rfl, rfl⟩

/-- C10: a successful load leaves both history stacks empty — `clear`
empties them and the reconstruction pushes shapes and connections
directly, recording nothing. -/
theorem loadFromFile_success_clears_history (inp : Option (Option LoadedDoc))
    (st st2 : DAState) (h : loadFromFile inp st = (true, st2)) :
    st2.undoStack = [] ∧ st2.redoStack = [] := by
  match inp with
  | none => simp [loadFromFile] at h
  | some none => simp [loadFromFile] at h
  | some (some doc) =>
    simp only [loadFromFile, Prod.mk.injEq, true_and] at h
    subst h
    constructor <;> simp [setPageSizeOp, clearOp] <;> split <;> rfl

/-- Witness for C10 at a canvas with non-empty history. -/
theorem loadFromFile_success_clears_history_witness :
    (loadFromFile (some (some doc0)) histSt).2.undoStack = [] ∧
    (loadFromFile (some (some doc0)) histSt).2.redoStack = [] :=
  loadFromFile_success_clears_history (some (some doc0)) histSt
    (loadFromFile (some (some doc0)) histSt).2 (by decide)

/-- C9: `undo` with an empty undo stack, and `redo` with an empty redo
stack, return immediately: the whole state — shapes, connections,
selection, both stacks — is unchanged. -/
theorem undo_redo_empty_stack_noop (st : DAState) :
    (st.undoStack = [] → undo st = some st) ∧ (st.redoStack = [] → redo st = some st) := by
  constructor <;> intro h
  · unfold undo; rw [h]
  · unfold redo; rw [h]

/-- Witness for C9 on the empty canvas. -/
theorem undo_redo_empty_stack_noop_witness :
    undo emptySt = some emptySt ∧ redo emptySt = some emptySt :=
  ⟨(undo_redo_empty_stack_noop emptySt).1 rfl, (undo_redo_empty_stack_noop emptySt).2 rfl⟩

/-- C8: setting the selected shape's line color (resp. width) to its
current value is a complete no-op — state unchanged, so in particular
no history action and unchanged stack depths; a differing value changes
exactly that property and pushes exactly one Property action carrying
the old and new (color, width) pairs, clearing the redo stack. -/
theorem property_setters_noop_or_record (st : DAState) (sh : Shape) (c w : Int)
    (hsel : idxGet? st.shapes st.selectedIndex = some sh) :
    (sh.lineColor = c → setSelectedShapeLineColor c st = st) ∧
    (sh.lineWidth = w → setSelectedShapeLineWidth w st = st) ∧
    (sh.lineColor ≠ c → st.ignoreHistoryActions = false →
      setSelectedShapeLineColor c st = { st with
        shapes := setIdx st.shapes st.selectedIndex { sh with lineColor := c },
        undoStack := { HistoryAction.base .property st.selectedIndex with
          oldLineColor := sh.lineColor, newLineColor := c,
          oldLineWidth := sh.lineWidth, newLineWidth := sh.lineWidth } :: st.undoStack,
        redoStack := [] }) ∧
    (sh.lineWidth ≠ w → st.ignoreHistoryActions = false →
      setSelectedShapeLineWidth w st = { st with
        shapes := setIdx st.shapes st.selectedIndex { sh with lineWidth := w },
        undoStack := { HistoryAction.base .property st.selectedIndex with
          oldLineColor := sh.lineColor, newLineColor := sh.lineColor,
          oldLineWidth := sh.lineWidth, newLineWidth := w } :: st.undoStack,
        redoStack := [] }) := by
  refine ⟨fun hc => ?_, fun hw => ?_, fun hc hig => ?_, fun hw hig => ?_⟩
  · simp [setSelectedShapeLineColor, hsel, hc]
  · simp [setSelectedShapeLineWidth, hsel, hw]
  · simp [setSelectedShapeLineColor, hsel, hc, recordPropertyChange, hig]
  · simp [setSelectedShapeLineWidth, hsel, hw, recordPropertyChange, hig]

/-- Witness for C8: both no-op branches and both recording branches at
a concrete canvas. -/
theorem property_setters_noop_or_record_witness :
    (setSelectedShapeLineColor 0 c4w = c4w) ∧
    (setSelectedShapeLineWidth 1 c4w = c4w) ∧
    (setSelectedShapeLineColor 5 c4w = { c4w with
      shapes := setIdx c4w.shapes c4w.selectedIndex { rectA with lineColor := 5 },
      undoStack := { HistoryAction.base .property c4w.selectedIndex with
        oldLineColor := 0, newLineColor := 5,
        oldLineWidth := 1, newLineWidth := 1 } :: c4w.undoStack,
      redoStack := [] }) ∧
    (setSelectedShapeLineWidth 3 c4w = { c4w with
      shapes := setIdx c4w.shapes c4w.selectedIndex { rectA with lineWidth := 3 },
      undoStack := { HistoryAction.base .property c4w.selectedIndex with
        oldLineColor := 0, newLineColor := 0,
        oldLineWidth := 1, newLineWidth := 3 } :: c4w.undoStack,
      redoStack := [] }) := by
  have h := property_setters_noop_or_record c4w rectA 5 3 (by decide)
  have h2 := property_setters_noop_or_record c4w rectA 0 1 (by decide)
  exact ⟨h2.1 rfl, h2.2.1 rfl, h.2.2.1 (by decide) rfl, h.2.2.2 (by decide) rfl⟩

/-- C7: dragging a Scale handle (position codes 0–7) of a non-arrow
shape applies the pointer delta to the corresponding edge(s)/corner; if
the resulting rect would have width or height below 1, the drag step is
rejected and the shape is left unchanged, with no error.  The trailing
conjuncts record that `movedRect` can only move the edges belonging to
the selected handle. -/
theorem scale_handle_resize_spec (s : Shape) (m lm : Pt)
    (ha : s.isArrow = false) (h0 : 0 ≤ s.selHandle) (h7 : s.selHandle ≤ 7)
    (hw : 1 ≤ s.rect.width) (hh : 1 ≤ s.rect.height) :
    (handleAnchorInteraction s m lm =
      some (if (movedRect s.selHandle (m.sub lm) s.rect).width < 1 ∨
               (movedRect s.selHandle (m.sub lm) s.rect).height < 1
            then s else s.resizeTo (movedRect s.selHandle (m.sub lm) s.rect))) ∧
    ((movedRect s.selHandle (m.sub lm) s.rect).l ≠ s.rect.l →
      s.selHandle = 0 ∨ s.selHandle = 3 ∨ s.selHandle = 5) ∧
    ((movedRect s.selHandle (m.sub lm) s.rect).t ≠ s.rect.t →
      s.selHandle = 0 ∨ s.selHandle = 1 ∨ s.selHandle = 2) ∧
    ((movedRect s.selHandle (m.sub lm) s.rect).r ≠ s.rect.r →
      s.selHandle = 2 ∨ s.selHandle = 4 ∨ s.selHandle = 7) ∧
    ((movedRect s.selHandle (m.sub lm) s.rect).b ≠ s.rect.b →
      s.selHandle = 5 ∨ s.selHandle = 6 ∨ s.selHandle = 7) := by
  have hcount : s.handleCount = 13 := by
    simp [Shape.handleCount, Shape.needPlusHandles, ha]
  have hcases : s.selHandle = 0 ∨ s.selHandle = 1 ∨ s.selHandle = 2 ∨ s.selHandle = 3 ∨
      s.selHandle = 4 ∨ s.selHandle = 5 ∨ s.selHandle = 6 ∨ s.selHandle = 7 := by omega
  have hne : s.selHandle ≠ -1 := by omega
  have hlt : ¬ ((s.handleCount : Int) ≤ s.selHandle) := by rw [hcount]; omega
  have h8 : s.selHandle ≠ 8 := by omega
  simp only [MyRect.width, MyRect.height] at hw hh
  rcases hcases with hk | hk | hk | hk | hk | hk | hk | hk <;>
    refine ⟨?_, ?_, ?_, ?_, ?_⟩ <;>
    simp only [handleAnchorInteraction, hne, hlt, h8, hk, calculateNewRect,
      movedRect, rejectDegenerate, MyRect.isEmptyRect, MyRect.width,
      MyRect.height, Shape.resizeTo, decide_eq_true_eq] <;>
    norm_num <;>
    split_ifs <;>
    first
      | rfl
      | omega
      | (exfalso; omega)
      | (rw [← hk])

/-- Witness for C7: a bottom-right corner drag that succeeds, applied
to `rectA` with the corner handle selected. -/
theorem scale_handle_resize_spec_witness :
    handleAnchorInteraction { rectA with selHandle := 7 } ⟨90, 70⟩ ⟨79, 59⟩ =
      some (if (movedRect 7 (Pt.sub ⟨90, 70⟩ ⟨79, 59⟩) rectA.rect).width < 1 ∨
               (movedRect 7 (Pt.sub ⟨90, 70⟩ ⟨79, 59⟩) rectA.rect).height < 1
            then { rectA with selHandle := 7 }
            else Shape.resizeTo { rectA with selHandle := 7 }
              (movedRect 7 (Pt.sub ⟨90, 70⟩ ⟨79, 59⟩) rectA.rect)) :=
  (scale_handle_resize_spec { rectA with selHandle := 7 } ⟨90, 70⟩ ⟨79, 59⟩
    (by decide) (by decide) (by decide) (by decide) (by decide)).1

/-! ### List helpers -/

theorem idxGet?_natCast {α : Type} (l : List α) (n : Nat) : idxGet? l (n : Int) = l.get? n := by
  simp [idxGet?]

theorem idxGet?_concat_length {α : Type} (l : List α) (a : α) :
    idxGet? (l ++ [a]) (l.length : Int) = some a := by
  rw [idxGet?_natCast]
  exact List.get?_concat_length l a

theorem eraseIdx_concat {α : Type} (l : List α) (a : α) : (l ++ [a]).eraseIdx l.length = l := by
  induction l with
  | nil => rfl
  | cons x t ih => simpa [List.eraseIdx] using ih

theorem insertIdx_concat_length {α : Type} (l : List α) (a : α) :
    l.insertIdx l.length a = l ++ [a] := by
  induction l with
  | nil => rfl
  | cons x t ih => simpa [List.insertIdx] using ih

theorem insertIdx_eraseIdx {α : Type} (l : List α) (n : Nat) (a : α)
    (h : l.get? n = some a) : (l.eraseIdx n).insertIdx n a = l := by
  induction l generalizing n with
  | nil => simp at h
  | cons x t ih =>
    cases n with
    | zero =>
      simp only [List.get?] at h
      injection h with h
      subst h
      rfl
    | succ m =>
      simp only [List.get?] at h
      simpa [List.eraseIdx, List.insertIdx] using ih m h

/-! ### The Add / undo / redo round trip (C3) -/

theorem addStack_concat (base : Nat) (M : List Shape) (a : Shape) :
    addStack base (M ++ [a]) = mkAddAction ((base + M.length : Nat) : Int) a :: addStack base M := by
  induction M generalizing base with
  | nil => simp [addStack]
  | cons s t ih =>
    show addStack (base + 1) (t ++ [a]) ++ [mkAddAction (base : Int) s] =
      mkAddAction ((base + (t.length + 1) : Nat) : Int) a ::
        (addStack (base + 1) t ++ [mkAddAction (base : Int) s])
    rw [ih (base + 1), List.cons_append,
      show base + 1 + t.length = base + (t.length + 1) from by omega]

theorem redoAddStack_concat (base : Nat) (M : List Shape) (a : Shape) :
    redoAddStack base (M ++ [a]) =
      redoAddStack base M ++ [mkAddAction ((base + M.length : Nat) : Int) a] := by
  induction M generalizing base with
  | nil => simp [redoAddStack]
  | cons s t ih =>
    show mkAddAction (base : Int) s :: redoAddStack (base + 1) (t ++ [a]) =
      (mkAddAction (base : Int) s :: redoAddStack (base + 1) t) ++
        [mkAddAction ((base + (t.length + 1) : Nat) : Int) a]
    rw [ih (base + 1), List.cons_append,
      show base + 1 + t.length = base + (t.length + 1) from by omega]

theorem addShape_spec (sh : Shape) (st : DAState) (hig : st.ignoreHistoryActions = false) :
    addShape sh st = { st with
      shapes := st.shapes ++ [sh],
      selectedIndex := (st.shapes.length : Int),
      undoStack := mkAddAction (st.shapes.length : Int) sh :: st.undoStack,
      redoStack := [] } := by
  have hlen : ((st.shapes ++ [sh]).length : Int) - 1 = (st.shapes.length : Int) := by
    simp
  unfold addShape recordAddShape
  simp only [hlen, hig, idxGet?_concat_length, mkAddAction, Bool.false_eq_true, if_false]

theorem addN_spec (L : List Shape) (st : DAState) (hig : st.ignoreHistoryActions = false) :
    (addN L st).shapes = st.shapes ++ L ∧
    (addN L st).undoStack = addStack st.shapes.length L ++ st.undoStack ∧
    (addN L st).arrowConnections = st.arrowConnections ∧
    (addN L st).ignoreHistoryActions = false ∧
    (addN L st).redoStack = (if L.isEmpty then st.redoStack else []) := by
  induction L generalizing st with
  | nil => simp [addN, addStack, hig]
  | cons sh t ih =>
    have hstep : addN (sh :: t) st = addN t (addShape sh st) := by
      simp [addN]
    rw [hstep, addShape_spec sh st hig]
    obtain ⟨h1, h2, h3, h4, h5⟩ := ih { st with
      shapes := st.shapes ++ [sh],
      selectedIndex := (st.shapes.length : Int),
      undoStack := mkAddAction (st.shapes.length : Int) sh :: st.undoStack,
      redoStack := [] } hig
    refine ⟨?_, ?_, by simpa using h3, h4, ?_⟩
    · rw [h1]; simp
    · rw [h2]; simp [addStack]
    · rw [h5]
      cases t with
      | nil => simp
      | cons b u => simp

theorem undo_add_step (st : DAState) (idx : Int) (sh sh2 : Shape) (rest : List HistoryAction)
    (hu : st.undoStack = mkAddAction idx sh :: rest)
    (hget : idxGet? st.shapes idx = some sh2) :
    undo st = some { st with
      undoStack := rest,
      redoStack := mkAddAction idx sh2 :: st.redoStack,
      shapes := eraseIdxInt st.shapes idx,
      selectedIndex := adjustSelErase st.selectedIndex idx,
      ignoreHistoryActions := false } := by
  unfold undo
  rw [hu]
  simp only [mkAddAction, HistoryAction.base, hget]
  rfl

theorem redo_add_step (st : DAState) (idx : Int) (sh : Shape) (rest : List HistoryAction)
    (hr : st.redoStack = mkAddAction idx sh :: rest) :
    redo st = some { st with
      redoStack := rest,
      undoStack := mkAddAction idx sh :: st.undoStack,
      shapes := st.shapes.insertIdx (min idx (st.shapes.length : Int)).toNat sh,
      selectedIndex :=
        if st.selectedIndex ≥ min idx (st.shapes.length : Int) then st.selectedIndex + 1
        else st.selectedIndex,
      ignoreHistoryActions := false } := by
  unfold redo
  rw [hr]
  simp only [mkAddAction, HistoryAction.base]
  rfl

theorem undoAddRun (L : List Shape) : ∀ (S : List Shape) (R : List HistoryAction) (st : DAState),
    st.shapes = S ++ L → st.undoStack = addStack S.length L ++ R →
    ∃ st2, undoN L.length st = some st2 ∧ st2.shapes = S ∧ st2.undoStack = R ∧
      st2.redoStack = redoAddStack S.length L ++ st.redoStack ∧
      st2.arrowConnections = st.arrowConnections := by
  induction L using List.reverseRecOn with
  | nil =>
    intro S R st hs hu
    exact ⟨st, by simp [undoN], by simpa using hs, by simpa [addStack] using hu,
      by simp [redoAddStack], rfl⟩
  | append_singleton M a ih =>
    intro S R st hs hu
    rw [addStack_concat] at hu
    have hs' : st.shapes = (S ++ M) ++ [a] := by simpa [List.append_assoc] using hs
    have hget : idxGet? st.shapes ((S.length + M.length : Nat) : Int) = some a := by
      rw [hs']
      have hlen : (S ++ M).length = S.length + M.length := by simp
      rw [← hlen]
      exact idxGet?_concat_length (S ++ M) a
    have hstep := undo_add_step st ((S.length + M.length : Nat) : Int) a a
      (addStack S.length M ++ R) hu hget
    set st1 : DAState := { st with
      undoStack := addStack S.length M ++ R,
      redoStack := mkAddAction ((S.length + M.length : Nat) : Int) a :: st.redoStack,
      shapes := eraseIdxInt st.shapes ((S.length + M.length : Nat) : Int),
      selectedIndex := adjustSelErase st.selectedIndex ((S.length + M.length : Nat) : Int),
      ignoreHistoryActions := false } with hst1
    have hshapes1 : st1.shapes = S ++ M := by
      rw [hst1]
      show eraseIdxInt st.shapes ((S.length + M.length : Nat) : Int) = S ++ M
      rw [hs', eraseIdxInt]
      have hlen : (S ++ M).length = S.length + M.length := by simp
      rw [show ((S.length + M.length : Nat) : Int).toNat = (S ++ M).length by omega]
      exact eraseIdx_concat (S ++ M) a
    obtain ⟨st2, h1, h2, h3, h4, h5⟩ := ih S R st1 hshapes1 (by rw [hst1])
    refine ⟨st2, ?_, h2, h3, ?_, by rw [h5, hst1]⟩
    · have hlenL : (M ++ [a]).length = M.length + 1 := by simp
      rw [hlenL]
      show (undo st).bind (undoN M.length) = some st2
      rw [hstep]
      simpa using h1
    · rw [h4, hst1]
      show redoAddStack S.length M ++ (mkAddAction ((S.length + M.length : Nat) : Int) a :: st.redoStack) =
        redoAddStack S.length (M ++ [a]) ++ st.redoStack
      rw [redoAddStack_concat]
      simp

theorem redoAddRun (L : List Shape) : ∀ (S : List Shape) (R : List HistoryAction) (st : DAState),
    st.shapes = S → st.redoStack = redoAddStack S.length L ++ R →
    ∃ st2, redoN L.length st = some st2 ∧ st2.shapes = S ++ L ∧ st2.redoStack = R ∧
      st2.undoStack = addStack S.length L ++ st.undoStack ∧
      st2.arrowConnections = st.arrowConnections := by
  induction L with
  | nil =>
    intro S R st hs hr
    exact ⟨st, by simp [redoN], by simp [hs], by simpa [redoAddStack] using hr,
      by simp [addStack], rfl⟩
  | cons a t ih =>
    intro S R st hs hr
    rw [redoAddStack] at hr
    have hstep := redo_add_step st ((S.length : Nat) : Int) a (redoAddStack (S.length + 1) t ++ R) hr
    have hmin : min ((S.length : Nat) : Int) ((st.shapes.length : Nat) : Int) = (S.length : Int) := by
      rw [hs]
      simp
    rw [hmin] at hstep
    have hins : st.shapes.insertIdx ((S.length : Int)).toNat a = S ++ [a] := by
      rw [hs, show ((S.length : Int)).toNat = S.length by simp]
      exact insertIdx_concat_length S a
    rw [hins] at hstep
    set st1 : DAState := { st with
      redoStack := redoAddStack (S.length + 1) t ++ R,
      undoStack := mkAddAction ((S.length : Nat) : Int) a :: st.undoStack,
      shapes := S ++ [a],
      selectedIndex :=
        if st.selectedIndex ≥ (S.length : Int) then st.selectedIndex + 1 else st.selectedIndex,
      ignoreHistoryActions := false } with hst1
    have hr1 : st1.redoStack = redoAddStack (S ++ [a]).length t ++ R := by
      rw [hst1]
      show redoAddStack (S.length + 1) t ++ R = redoAddStack (S ++ [a]).length t ++ R
      simp
    obtain ⟨st2, h1, h2, h3, h4, h5⟩ := ih (S ++ [a]) R st1 (by rw [hst1]) hr1
    refine ⟨st2, ?_, ?_, h3, ?_, by rw [h5, hst1]⟩
    · show (redo st).bind (redoN t.length) = some st2
      rw [hstep]
      simpa using h1
    · rw [h2]; simp
    · rw [h4, hst1]
      show addStack (S ++ [a]).length t ++ (mkAddAction ((S.length : Nat) : Int) a :: st.undoStack) =
        addStack S.length (a :: t) ++ st.undoStack
      simp [addStack]

/-- C3: for every starting canvas (not replaying history) and every run
of `N` recorded additions, `N` undos return the shape list exactly to
its pre-sequence contents, and `N` redos then restore all `N` shapes;
each undo of an Add erases the shape at the recorded index and pushes a
clone-bearing Add action, and each redo reinserts the clone at
`min(recorded index, list size)`. -/
theorem add_undo_redo_roundtrip (L : List Shape) (st : DAState)
    (hig : st.ignoreHistoryActions = false) :
    (undoN L.length (addN L st)).map DAState.shapes = some st.shapes ∧
    ((undoN L.length (addN L st)).bind (redoN L.length)).map DAState.shapes =
      some (st.shapes ++ L) := by
  obtain ⟨ha1, ha2, ha3, ha4, ha5⟩ := addN_spec L st hig
  obtain ⟨st2, hu1, hu2, hu3, hu4, hu5⟩ :=
    undoAddRun L st.shapes st.undoStack (addN L st) ha1 ha2
  obtain ⟨st3, hr1, hr2, hr3, hr4, hr5⟩ :=
    redoAddRun L st.shapes ((addN L st).redoStack) st2 hu2 hu4
  rw [hu1]
  exact ⟨by simp [hu2], by simp [hr1, hr2]⟩

/-- Witness for C3: two additions on the empty canvas, undone and
redone. -/
theorem add_undo_redo_roundtrip_witness :
    (undoN 2 (addN [rectA, rectB] emptySt)).map DAState.shapes = some ([] : List Shape) ∧
    ((undoN 2 (addN [rectA, rectB] emptySt)).bind (redoN 2)).map DAState.shapes =
      some [rectA, rectB] :=
  add_undo_redo_roundtrip [rectA, rectB] emptySt rfl

/-! ### Remove and its undo (C4) -/

theorem undo_remove_step (st : DAState) (idx : Int) (sh : Shape)
    (conns : List ArrowConnection) (rest : List HistoryAction)
    (hu : st.undoStack =
      ({ HistoryAction.base .remove idx with shape := some sh, connections := conns }) :: rest) :
    undo st = some { st with
      undoStack := rest,
      redoStack :=
        { HistoryAction.base .remove idx with shape := some sh, connections := conns }
          :: st.redoStack,
      arrowConnections := st.arrowConnections ++ conns,
      shapes := st.shapes.insertIdx (min idx (st.shapes.length : Int)).toNat sh,
      selectedIndex :=
        if st.selectedIndex ≥ min idx (st.shapes.length : Int) then st.selectedIndex + 1
        else st.selectedIndex,
      ignoreHistoryActions := false } := by
  unfold undo
  rw [hu]
  rfl

/-- C4 (amended): recording a Remove stores a full clone of the shape
plus every connection whose `shapeIndex` equals the removed index —
connections referencing the shape only through `arrowIndex` are *not*
stashed — and undoing that Remove reinserts the cloned shape at its
original index and appends exactly those stashed connections to the
connection list. -/
theorem remove_undo_restores_stashed_connections (st : DAState) (sh : Shape)
    (hig : st.ignoreHistoryActions = false)
    (hget : idxGet? st.shapes st.selectedIndex = some sh) :
    (deleteSelectedShape st).undoStack =
      ({ HistoryAction.base .remove st.selectedIndex with
        shape := some sh,
        connections :=
          st.arrowConnections.filter (fun c => decide (c.shapeIndex = st.selectedIndex)) }
        :: st.undoStack) ∧
    (undo (deleteSelectedShape st)).map DAState.shapes = some st.shapes ∧
    (undo (deleteSelectedShape st)).map DAState.arrowConnections =
      some (st.arrowConnections.filter
          (fun c => !decide (c.arrowIndex = st.selectedIndex ∨ c.shapeIndex = st.selectedIndex))
        ++ st.arrowConnections.filter (fun c => decide (c.shapeIndex = st.selectedIndex))) := by
  have h0 : 0 ≤ st.selectedIndex := by
    by_contra h
    rw [idxGet?, if_neg h] at hget
    exact absurd hget (by simp)
  have hget' : st.shapes.get? st.selectedIndex.toNat = some sh := by
    rw [idxGet?, if_pos h0] at hget
    exact hget
  have hltN : st.selectedIndex.toNat < st.shapes.length := by
    obtain ⟨h, -⟩ := List.get?_eq_some.mp hget'
    exact h
  have hcond : st.selectedIndex ≠ -1 ∧ st.selectedIndex < (st.shapes.length : Int) :=
    ⟨by omega, by omega⟩
  have hdel : deleteSelectedShape st = { st with
      undoStack :=
        ({ HistoryAction.base .remove st.selectedIndex with
          shape := some sh,
          connections :=
            st.arrowConnections.filter (fun c => decide (c.shapeIndex = st.selectedIndex)) }
          :: st.undoStack),
      redoStack := [],
      arrowConnections := st.arrowConnections.filter
        (fun c => !decide (c.arrowIndex = st.selectedIndex ∨ c.shapeIndex = st.selectedIndex)),
      shapes := eraseIdxInt st.shapes st.selectedIndex,
      selectedIndex := -1 } := by
    unfold deleteSelectedShape recordRemoveShape
    rw [if_pos hcond, hig]
    simp only [Bool.false_eq_true, if_false, hget]
  have hlen2 : (eraseIdxInt st.shapes st.selectedIndex).length = st.shapes.length - 1 := by
    rw [eraseIdxInt]
    rw [List.length_eraseIdx]
    simp [hltN]
  have hmin : min st.selectedIndex ((eraseIdxInt st.shapes st.selectedIndex).length : Int) =
      st.selectedIndex := by
    rw [hlen2]
    omega
  have hins : (eraseIdxInt st.shapes st.selectedIndex).insertIdx st.selectedIndex.toNat sh =
      st.shapes := by
    rw [eraseIdxInt]
    exact insertIdx_eraseIdx st.shapes st.selectedIndex.toNat sh hget'
  have hstep := undo_remove_step (deleteSelectedShape st) st.selectedIndex sh
    (st.arrowConnections.filter (fun c => decide (c.shapeIndex = st.selectedIndex)))
    st.undoStack (by rw [hdel])
  refine ⟨by rw [hdel], ?_, ?_⟩ <;>
    rw [hstep, hdel] <;>
    simp only [Option.map_some] <;>
    simp [hmin, hins]

/-- Witness for C4's amended theorem: deleting `rectA` (index 0) from a
canvas where connection `⟨1,0,3,true⟩` has `shapeIndex = 0` and
connection `⟨1,2,2,false⟩` does not. -/
theorem remove_undo_restores_stashed_connections_witness :
    (deleteSelectedShape c4w).undoStack =
      ({ HistoryAction.base .remove c4w.selectedIndex with
        shape := some rectA,
        connections :=
          c4w.arrowConnections.filter (fun c => decide (c.shapeIndex = c4w.selectedIndex)) }
        :: c4w.undoStack) ∧
    (undo (deleteSelectedShape c4w)).map DAState.shapes = some c4w.shapes ∧
    (undo (deleteSelectedShape c4w)).map DAState.arrowConnections =
      some (c4w.arrowConnections.filter
          (fun c => !decide (c.arrowIndex = c4w.selectedIndex ∨ c.shapeIndex = c4w.selectedIndex))
        ++ c4w.arrowConnections.filter (fun c => decide (c.shapeIndex = c4w.selectedIndex))) :=
  remove_undo_restores_stashed_connections c4w rectA rfl (by decide)

/-! ### Fold invariants and index lemmas (support for C6) -/

theorem foldl_preserve {α β : Type} (step : β → α → β) (P : β → Prop) :
    ∀ (l : List α) (init : β), P init →
      (∀ acc x, x ∈ l → P acc → P (step acc x)) → P (l.foldl step init) := by
  intro l
  induction l with
  | nil => intro init h _; simpa using h
  | cons x t ih =>
    intro init h hstep
    rw [List.foldl_cons]
    exact ih (step init x) (hstep init x (by simp) h)
      (fun acc y hy hp => hstep acc y (by simp [hy]) hp)

theorem foldlM_preserve {α β : Type} (step : β → α → Option β) (P : β → Prop) :
    ∀ (l : List α) (init res : β), P init →
      (∀ acc x acc2, x ∈ l → P acc → step acc x = some acc2 → P acc2) →
      l.foldlM step init = some res → P res := by
  intro l
  induction l with
  | nil =>
    intro init res h _ hr
    rw [List.foldlM_nil] at hr
    injection hr with hr
    exact hr ▸ h
  | cons x t ih =>
    intro init res h hstep hr
    rw [List.foldlM_cons] at hr
    cases hx : step init x with
    | none => rw [hx] at hr; exact absurd hr (by simp)
    | some b =>
      rw [hx] at hr
      exact ih b res (hstep init x b (by simp) h hx)
        (fun acc y acc2 hy hp hs => hstep acc y acc2 (by simp [hy]) hp hs)
        (by simpa using hr)

theorem foldlM_none {α β : Type} (step : β → α → Option β) (Q : β → Prop) (x : α) :
    ∀ (l : List α) (init : β), x ∈ l → Q init →
      (∀ acc, Q acc → step acc x = none) →
      (∀ acc y acc2, y ∈ l → Q acc → step acc y = some acc2 → Q acc2) →
      l.foldlM step init = none := by
  intro l
  induction l with
  | nil => intro init hx; simp at hx
  | cons y t ih =>
    intro init hx hQ hnone hpres
    rw [List.foldlM_cons]
    rcases List.mem_cons.mp hx with rfl | hxt
    · rw [hnone init hQ]; rfl
    · cases hy : step init y with
      | none => rfl
      | some b =>
        simp only [Option.bind_eq_bind, Option.some_bind]
        exact ih b hxt (hpres init y b (by simp) hQ hy) hnone
          (fun acc z acc2 hz hp hs => hpres acc z acc2 (by simp [hz]) hp hs)

theorem filter_eq_single_split {α : Type} (p : α → Bool) :
    ∀ (l : List α) (c : α), l.filter p = [c] →
      ∃ l1 l2, l = l1 ++ c :: l2 ∧ (∀ y ∈ l1, p y = false) ∧ (∀ y ∈ l2, p y = false) ∧
        p c = true := by
  intro l
  induction l with
  | nil => intro c h; simp at h
  | cons x t ih =>
    intro c h
    by_cases hp : p x
    · rw [List.filter_cons_of_pos hp] at h
      injection h with h1 h2
      subst h1
      refine ⟨[], t, rfl, by simp, ?_, hp⟩
      intro y hy
      have := List.filter_eq_nil.mp h2 y hy
      simpa using this
    · rw [List.filter_cons_of_neg hp] at h
      obtain ⟨l1, l2, rfl, h1, h2, hc⟩ := ih c h
      refine ⟨x :: l1, l2, rfl, ?_, h2, hc⟩
      intro y hy
      rcases List.mem_cons.mp hy with rfl | hy2
      · simpa using hp
      · exact h1 y hy2

theorem idxGet?_eq_some {α : Type} {l : List α} {j : Int} {x : α}
    (h : idxGet? l j = some x) : 0 ≤ j ∧ l.get? j.toNat = some x := by
  by_cases hj : 0 ≤ j
  · rw [idxGet?, if_pos hj] at h; exact ⟨hj, h⟩
  · rw [idxGet?, if_neg hj] at h; exact absurd h (by simp)

theorem get?_lt_length {α : Type} {l : List α} {n : Nat} {x : α}
    (h : l.get? n = some x) : n < l.length :=
  (List.get?_eq_some.mp h).1

theorem get?_set_self' {α : Type} (l : List α) (n : Nat) (x : α) (h : n < l.length) :
    (l.set n x).get? n = some x := by
  induction l generalizing n with
  | nil => simp at h
  | cons a t ih =>
    cases n with
    | zero => rfl
    | succ m => exact ih m (by simpa using h)

theorem get?_set_ne' {α : Type} (l : List α) (m n : Nat) (x : α) (h : m ≠ n) :
    (l.set m x).get? n = l.get? n := by
  induction l generalizing m n with
  | nil => rfl
  | cons a t ih =>
    cases m with
    | zero =>
      cases n with
      | zero => exact absurd rfl h
      | succ k => rfl
    | succ m2 =>
      cases n with
      | zero => rfl
      | succ k => exact ih m2 k (by omega)

theorem idxGet?_listSet_ne {α : Type} (l : List α) (i : Nat) (j : Int) (x : α)
    (h : (i : Int) ≠ j) : idxGet? (l.set i x) j = idxGet? l j := by
  by_cases hj : 0 ≤ j
  · rw [idxGet?, idxGet?, if_pos hj, if_pos hj]
    exact get?_set_ne' l i j.toNat x (by omega)
  · rw [idxGet?, idxGet?, if_neg hj, if_neg hj]

theorem idxGet?_listSet_self {α : Type} (l : List α) (i : Nat) (x : α) (h : i < l.length) :
    idxGet? (l.set i x) (i : Int) = some x := by
  rw [idxGet?_natCast]
  exact get?_set_self' l i x h

theorem idxGet?_setIdx_ne {α : Type} (l : List α) (i j : Int) (x : α) (h : i ≠ j) :
    idxGet? (setIdx l i x) j = idxGet? l j := by
  rw [setIdx]
  split
  · exact idxGet?_listSet_ne l i.toNat j x (by omega)
  · rfl

theorem idxGet?_setIdx_self {α : Type} (l : List α) (i : Int) (x y : α)
    (h : idxGet? l i = some y) : idxGet? (setIdx l i x) i = some x := by
  obtain ⟨h0, hg⟩ := idxGet?_eq_some h
  rw [setIdx, if_pos h0]
  have h2 := idxGet?_listSet_self l i.toNat x (get?_lt_length hg)
  rwa [show ((i.toNat : Nat) : Int) = i by omega] at h2

theorem setIdx_length {α : Type} (l : List α) (i : Int) (x : α) :
    (setIdx l i x).length = l.length := by
  rw [setIdx]
  split <;> simp

/-! ### Endpoint lemmas -/

theorem endpoint_set_same (sh : Shape) (b : Bool) (p : Pt) :
    (sh.setEndpoint b p).endpoint b = p := by cases b <;> rfl

theorem endpoint_set_other (sh : Shape) (b : Bool) (p : Pt) :
    (sh.setEndpoint (!b) p).endpoint b = sh.endpoint b := by cases b <;> rfl

theorem setEndpoint_isArrow (sh : Shape) (b : Bool) (p : Pt) :
    (sh.setEndpoint b p).isArrow = sh.isArrow := by cases b <;> rfl

theorem endpoint_updateConnection_same (sh : Shape) (b : Bool) (d : Pt) :
    (sh.updateConnection b d).endpoint b = (sh.endpoint b).add d := by cases b <;> rfl

theorem endpoint_updateConnection_other (sh : Shape) (b : Bool) (d : Pt) :
    (sh.updateConnection (!b) d).endpoint b = sh.endpoint b := by cases b <;> rfl

theorem updateConnection_isArrow (sh : Shape) (b : Bool) (d : Pt) :
    (sh.updateConnection b d).isArrow = sh.isArrow := by cases b <;> rfl

theorem endpoint_true (sh : Shape) : sh.endpoint true = sh.p1 := rfl

theorem endpoint_false (sh : Shape) : sh.endpoint false = sh.p2 := rfl

theorem anchors_nonempty_not_arrow {tgt : Shape} {j : Int} {p : Pt}
    (h : idxGet? tgt.anchorCenters j = some p) : tgt.isArrow = false := by
  by_cases hk : tgt.kind = ShapeKind.arrow
  · rw [Shape.anchorCenters, if_pos hk] at h
    obtain ⟨-, hg⟩ := idxGet?_eq_some h
    simp at hg
  · simp [Shape.isArrow, hk]

/-! ### Behaviour of the first pass of `updateConnectedArrows` -/

theorem firstPassStep_preserve (s : Int) (anchors : List Pt) (δ : Pt) (a : Int) (b : Bool)
    (v : Pt) (shapes : List Shape) (conn : ArrowConnection)
    (hnm : endpointShapeMatch a b s conn = false)
    (h : ∃ ar1, idxGet? shapes a = some ar1 ∧ ar1.isArrow = true ∧ ar1.endpoint b = v) :
    ∃ ar1, idxGet? (firstPassStep s anchors δ shapes conn) a = some ar1 ∧
      ar1.isArrow = true ∧ ar1.endpoint b = v := by
  obtain ⟨ar1, hg, hia, hep⟩ := h
  by_cases h1 : conn.shapeIndex = s
  · by_cases ha2 : conn.arrowIndex = a
    · have hb : conn.isStartPoint = !b := by
        rw [endpointShapeMatch, decide_eq_false_iff_not] at hnm
        cases b <;> cases hcb : conn.isStartPoint <;> simp_all
      cases hanch : idxGet? anchors conn.handleIndex with
      | some p =>
        refine ⟨ar1.setEndpoint (!b) p, ?_, ?_, ?_⟩
        · simp only [firstPassStep, if_pos h1, ha2, hg, hia, hanch, if_true, hb]
          exact idxGet?_setIdx_self shapes a _ ar1 hg
        · rw [setEndpoint_isArrow]; exact hia
        · rw [endpoint_set_other]; exact hep
      | none =>
        refine ⟨ar1.updateConnection (!b) δ, ?_, ?_, ?_⟩
        · simp only [firstPassStep, if_pos h1, ha2, hg, hia, hanch, if_true, hb]
          exact idxGet?_setIdx_self shapes a _ ar1 hg
        · rw [updateConnection_isArrow]; exact hia
        · rw [endpoint_updateConnection_other]; exact hep
    · cases hga : idxGet? shapes conn.arrowIndex with
      | none =>
        refine ⟨ar1, ?_, hia, hep⟩
        simp only [firstPassStep, if_pos h1, hga]
        exact hg
      | some sh =>
        by_cases hia2 : sh.isArrow = true
        · cases hanch : idxGet? anchors conn.handleIndex with
          | some p =>
            refine ⟨ar1, ?_, hia, hep⟩
            simp only [firstPassStep, if_pos h1, hga, hia2, hanch, if_true]
            rw [idxGet?_setIdx_ne _ _ _ _ ha2]
            exact hg
          | none =>
            refine ⟨ar1, ?_, hia, hep⟩
            simp only [firstPassStep, if_pos h1, hga, hia2, hanch, if_true]
            rw [idxGet?_setIdx_ne _ _ _ _ ha2]
            exact hg
        · refine ⟨ar1, ?_, hia, hep⟩
          simp only [firstPassStep, if_pos h1, hga]
          rw [if_neg hia2]
          exact hg
  · refine ⟨ar1, ?_, hia, hep⟩
    simp only [firstPassStep, if_neg h1]
    exact hg

theorem firstPass_preserve (s : Int) (anchors : List Pt) (δ : Pt) (a : Int) (b : Bool)
    (v : Pt) (conns : List ArrowConnection) (shapes : List Shape)
    (hall : ∀ c2 ∈ conns, endpointShapeMatch a b s c2 = false)
    (h : ∃ ar1, idxGet? shapes a = some ar1 ∧ ar1.isArrow = true ∧ ar1.endpoint b = v) :
    ∃ ar1, idxGet? (firstPass s anchors δ shapes conns) a = some ar1 ∧
      ar1.isArrow = true ∧ ar1.endpoint b = v :=
  foldl_preserve (firstPassStep s anchors δ)
    (fun l => ∃ ar1, idxGet? l a = some ar1 ∧ ar1.isArrow = true ∧ ar1.endpoint b = v)
    conns shapes h
    (fun acc x hx hp => firstPassStep_preserve s anchors δ a b v acc x (hall x hx) hp)

theorem firstPassStep_preserves_nonarrow (s : Int) (anchors : List Pt) (δ : Pt)
    (shapes : List Shape) (conn : ArrowConnection) (j : Int) (tgt : Shape)
    (hj : idxGet? shapes j = some tgt) (hna : tgt.isArrow = false) :
    idxGet? (firstPassStep s anchors δ shapes conn) j = some tgt := by
  by_cases h1 : conn.shapeIndex = s
  · cases hga : idxGet? shapes conn.arrowIndex with
    | none => simp only [firstPassStep, if_pos h1, hga]; exact hj
    | some sh =>
      by_cases hia2 : sh.isArrow = true
      · have hne : conn.arrowIndex ≠ j := by
          intro he
          rw [he, hj] at hga
          injection hga with hga
          rw [hga] at hna
          rw [hna] at hia2
          exact absurd hia2 (by simp)
        cases hanch : idxGet? anchors conn.handleIndex with
        | some p =>
          simp only [firstPassStep, if_pos h1, hga, hia2, hanch, if_true]
          rw [idxGet?_setIdx_ne _ _ _ _ hne]
          exact hj
        | none =>
          simp only [firstPassStep, if_pos h1, hga, hia2, hanch, if_true]
          rw [idxGet?_setIdx_ne _ _ _ _ hne]
          exact hj
      · simp only [firstPassStep, if_pos h1, hga]
        rw [if_neg hia2]
        exact hj
  · simp only [firstPassStep, if_neg h1]
    exact hj

theorem firstPass_preserves_nonarrow (s : Int) (anchors : List Pt) (δ : Pt)
    (conns : List ArrowConnection) (shapes : List Shape) (j : Int) (tgt : Shape)
    (hj : idxGet? shapes j = some tgt) (hna : tgt.isArrow = false) :
    idxGet? (firstPass s anchors δ shapes conns) j = some tgt :=
  foldl_preserve (firstPassStep s anchors δ) (fun l => idxGet? l j = some tgt)
    conns shapes hj
    (fun acc x _ hp => firstPassStep_preserves_nonarrow s anchors δ acc x j tgt hp hna)

theorem firstPassStep_length (s : Int) (anchors : List Pt) (δ : Pt)
    (shapes : List Shape) (conn : ArrowConnection) :
    (firstPassStep s anchors δ shapes conn).length = shapes.length := by
  rw [firstPassStep]
  repeat' split
  all_goals first | rw [setIdx_length] | rfl

theorem firstPass_length (s : Int) (anchors : List Pt) (δ : Pt)
    (conns : List ArrowConnection) (shapes : List Shape) :
    (firstPass s anchors δ shapes conns).length = shapes.length :=
  foldl_preserve (firstPassStep s anchors δ) (fun l => l.length = shapes.length)
    conns shapes rfl
    (fun acc x _ hp => by
      show (firstPassStep s anchors δ acc x).length = shapes.length
      rw [firstPassStep_length]
      exact hp)

theorem firstPass_append_cons (s : Int) (anchors : List Pt) (δ : Pt) (shapes : List Shape)
    (l1 : List ArrowConnection) (c : ArrowConnection) (l2 : List ArrowConnection) :
    firstPass s anchors δ shapes (l1 ++ c :: l2) =
      firstPass s anchors δ (firstPassStep s anchors δ (firstPass s anchors δ shapes l1) c) l2 := by
  rw [firstPass, List.foldl_append, List.foldl_cons]
  rfl

theorem firstPass_match_valid (s : Int) (anchors : List Pt) (δ : Pt)
    (l1 l2 : List ArrowConnection) (c : ArrowConnection) (shapes : List Shape)
    (ar : Shape) (anch : Pt)
    (hl1 : ∀ c2 ∈ l1, endpointShapeMatch c.arrowIndex c.isStartPoint s c2 = false)
    (hl2 : ∀ c2 ∈ l2, endpointShapeMatch c.arrowIndex c.isStartPoint s c2 = false)
    (hcs : c.shapeIndex = s)
    (hg : idxGet? shapes c.arrowIndex = some ar) (hia : ar.isArrow = true)
    (hanch : idxGet? anchors c.handleIndex = some anch) :
    ∃ ar1, idxGet? (firstPass s anchors δ shapes (l1 ++ c :: l2)) c.arrowIndex = some ar1 ∧
      ar1.isArrow = true ∧ ar1.endpoint c.isStartPoint = anch := by
  rw [firstPass_append_cons]
  obtain ⟨ar1, hg1, hia1, hep1⟩ :=
    firstPass_preserve s anchors δ c.arrowIndex c.isStartPoint (ar.endpoint c.isStartPoint)
      l1 shapes hl1 ⟨ar, hg, hia, rfl⟩
  have hstep : firstPassStep s anchors δ (firstPass s anchors δ shapes l1) c =
      setIdx (firstPass s anchors δ shapes l1) c.arrowIndex
        (ar1.setEndpoint c.isStartPoint anch) := by
    simp only [firstPassStep, if_pos hcs, hg1, hia1, hanch, if_true]
  rw [hstep]
  exact firstPass_preserve s anchors δ c.arrowIndex c.isStartPoint anch l2 _ hl2
    ⟨ar1.setEndpoint c.isStartPoint anch,
      idxGet?_setIdx_self _ _ _ ar1 hg1,
      by rw [setEndpoint_isArrow]; exact hia1,
      endpoint_set_same ar1 c.isStartPoint anch⟩

theorem firstPass_match_invalid (s : Int) (anchors : List Pt) (δ : Pt)
    (l1 l2 : List ArrowConnection) (c : ArrowConnection) (shapes : List Shape) (ar : Shape)
    (hl1 : ∀ c2 ∈ l1, endpointShapeMatch c.arrowIndex c.isStartPoint s c2 = false)
    (hl2 : ∀ c2 ∈ l2, endpointShapeMatch c.arrowIndex c.isStartPoint s c2 = false)
    (hcs : c.shapeIndex = s)
    (hg : idxGet? shapes c.arrowIndex = some ar) (hia : ar.isArrow = true)
    (hanch : idxGet? anchors c.handleIndex = none) :
    ∃ ar1, idxGet? (firstPass s anchors δ shapes (l1 ++ c :: l2)) c.arrowIndex = some ar1 ∧
      ar1.isArrow = true ∧ ar1.endpoint c.isStartPoint = (ar.endpoint c.isStartPoint).add δ := by
  rw [firstPass_append_cons]
  obtain ⟨ar1, hg1, hia1, hep1⟩ :=
    firstPass_preserve s anchors δ c.arrowIndex c.isStartPoint (ar.endpoint c.isStartPoint)
      l1 shapes hl1 ⟨ar, hg, hia, rfl⟩
  have hstep : firstPassStep s anchors δ (firstPass s anchors δ shapes l1) c =
      setIdx (firstPass s anchors δ shapes l1) c.arrowIndex
        (ar1.updateConnection c.isStartPoint δ) := by
    simp only [firstPassStep, if_pos hcs, hg1, hia1, hanch, if_true]
  rw [hstep]
  exact firstPass_preserve s anchors δ c.arrowIndex c.isStartPoint
    ((ar.endpoint c.isStartPoint).add δ) l2 _ hl2
    ⟨ar1.updateConnection c.isStartPoint δ,
      idxGet?_setIdx_self _ _ _ ar1 hg1,
      by rw [updateConnection_isArrow]; exact hia1,
      by rw [endpoint_updateConnection_same, hep1]⟩

/-! ### Behaviour of the heals and the connection scan of the second
pass -/

theorem healStart_p2 (anchors : List Pt) (i : Nat) (s : Int) (p1 : Pt) (sc : Bool)
    (sh1 : Shape) (conns : List ArrowConnection) :
    (healStart anchors i s p1 sc sh1 conns).1.p2 = sh1.p2 := by
  rw [healStart]
  split
  · rfl
  · split <;> rfl

theorem healStart_p1_of_skip (anchors : List Pt) (i : Nat) (s : Int) (p1 : Pt)
    (sh1 : Shape) (conns : List ArrowConnection) :
    (healStart anchors i s p1 true sh1 conns) = (sh1, conns) := rfl

theorem healEnd_p1 (anchors : List Pt) (i : Nat) (s : Int) (p2 : Pt) (ec : Bool)
    (st2 : Shape × List ArrowConnection) :
    (healEnd anchors i s p2 ec st2).1.p1 = st2.1.p1 := by
  rw [healEnd]
  split
  · rfl
  · split <;> rfl

theorem healEnd_of_skip (anchors : List Pt) (i : Nat) (s : Int) (p2 : Pt)
    (st2 : Shape × List ArrowConnection) :
    healEnd anchors i s p2 true st2 = st2 := rfl

theorem healStart_isArrow (anchors : List Pt) (i : Nat) (s : Int) (p1 : Pt) (sc : Bool)
    (sh1 : Shape) (conns : List ArrowConnection) :
    (healStart anchors i s p1 sc sh1 conns).1.isArrow = sh1.isArrow := by
  rw [healStart]
  split
  · rfl
  · split <;> simp [Shape.isArrow]

theorem healEnd_isArrow (anchors : List Pt) (i : Nat) (s : Int) (p2 : Pt) (ec : Bool)
    (st2 : Shape × List ArrowConnection) :
    (healEnd anchors i s p2 ec st2).1.isArrow = st2.1.isArrow := by
  rw [healEnd]
  split
  · rfl
  · split <;> simp [Shape.isArrow]

theorem healStart_conns_mem (anchors : List Pt) (i : Nat) (s : Int) (p1 : Pt) (sc : Bool)
    (sh1 : Shape) (conns : List ArrowConnection) :
    ∀ cn ∈ (healStart anchors i s p1 sc sh1 conns).2,
      cn ∈ conns ∨ (cn.arrowIndex = (i : Int) ∧ cn.isStartPoint = true) := by
  rw [healStart]
  split
  · exact fun cn h => Or.inl h
  · split
    · intro cn h
      rcases List.mem_append.mp h with h2 | h2
      · exact Or.inl h2
      · right
        rw [List.mem_singleton] at h2
        subst h2
        exact ⟨rfl, rfl⟩
    · exact fun cn h => Or.inl h

theorem healEnd_conns_mem (anchors : List Pt) (i : Nat) (s : Int) (p2 : Pt) (ec : Bool)
    (st2 : Shape × List ArrowConnection) :
    ∀ cn ∈ (healEnd anchors i s p2 ec st2).2,
      cn ∈ st2.2 ∨ (cn.arrowIndex = (i : Int) ∧ cn.isStartPoint = false) := by
  rw [healEnd]
  split
  · exact fun cn h => Or.inl h
  · split
    · intro cn h
      rcases List.mem_append.mp h with h2 | h2
      · exact Or.inl h2
      · right
        rw [List.mem_singleton] at h2
        subst h2
        exact ⟨rfl, rfl⟩
    · exact fun cn h => Or.inl h

theorem healStart_conns_sub (anchors : List Pt) (i : Nat) (s : Int) (p1 : Pt) (sc : Bool)
    (sh1 : Shape) (conns : List ArrowConnection) :
    ∀ cn ∈ conns, cn ∈ (healStart anchors i s p1 sc sh1 conns).2 := by
  rw [healStart]
  split
  · exact fun cn h => h
  · split
    · exact fun cn h => List.mem_append.mpr (Or.inl h)
    · exact fun cn h => h

theorem healEnd_conns_sub (anchors : List Pt) (i : Nat) (s : Int) (p2 : Pt) (ec : Bool)
    (st2 : Shape × List ArrowConnection) :
    ∀ cn ∈ st2.2, cn ∈ (healEnd anchors i s p2 ec st2).2 := by
  rw [healEnd]
  split
  · exact fun cn h => h
  · split
    · exact fun cn h => List.mem_append.mpr (Or.inl h)
    · exact fun cn h => h

theorem scanConns_endpoint (anchors : List Pt) (s a : Int) (b : Bool) (anch : Pt)
    (conns : List ArrowConnection) (sh : Shape) (res : Shape × Bool × Bool)
    (hmatch : ∀ c2 ∈ conns, endpointShapeMatch a b s c2 = true →
      idxGet? anchors c2.handleIndex = some anch)
    (hend : sh.endpoint b = anch) (hia : sh.isArrow = true)
    (hres : scanConns anchors a s sh conns = some res) :
    res.1.endpoint b = anch ∧ res.1.isArrow = true := by
  refine foldlM_preserve (scanStep anchors a s)
    (fun x => x.1.endpoint b = anch ∧ x.1.isArrow = true) conns (sh, false, false) res
    ⟨hend, hia⟩ ?_ hres
  intro acc conn acc2 hmem hp hstep
  rw [scanStep] at hstep
  by_cases hc : conn.arrowIndex = a ∧ conn.shapeIndex = s
  · rw [if_pos hc] at hstep
    cases hg : idxGet? anchors conn.handleIndex with
    | none => rw [hg] at hstep; exact absurd hstep (by simp)
    | some p =>
      rw [hg] at hstep
      by_cases hcb : conn.isStartPoint = b
      · have hm : endpointShapeMatch a b s conn = true := by
          rw [endpointShapeMatch]
          exact decide_eq_true ⟨hc.1, hcb, hc.2⟩
        have hpa : p = anch := by
          have h2 := hmatch conn hmem hm
          rw [hg] at h2
          injection h2
        subst hpa
        cases b
        · rw [show conn.isStartPoint = false from hcb] at hstep
          simp only [if_false, Bool.false_eq_true] at hstep
          injection hstep with hstep
          subst hstep
          exact ⟨rfl, by simpa [Shape.isArrow] using hp.2⟩
        · rw [show conn.isStartPoint = true from hcb] at hstep
          simp only [if_true] at hstep
          injection hstep with hstep
          subst hstep
          exact ⟨rfl, by simpa [Shape.isArrow] using hp.2⟩
      · have hcb2 : conn.isStartPoint = !b := by
          cases b <;> cases h2 : conn.isStartPoint <;> simp_all
        cases b
        · rw [show conn.isStartPoint = true by simpa using hcb2] at hstep
          simp only [if_true] at hstep
          injection hstep with hstep
          subst hstep
          exact ⟨hp.1, by simpa [Shape.isArrow] using hp.2⟩
        · rw [show conn.isStartPoint = false by simpa using hcb2] at hstep
          simp only [if_false, Bool.false_eq_true] at hstep
          injection hstep with hstep
          subst hstep
          exact ⟨hp.1, by simpa [Shape.isArrow] using hp.2⟩
  · rw [if_neg hc] at hstep
    injection hstep with hstep
    subst hstep
    exact hp

theorem scanConns_flag (anchors : List Pt) (s a : Int) (conns : List ArrowConnection)
    (sh : Shape) (res : Shape × Bool × Bool) (c0 : ArrowConnection)
    (hc0 : c0 ∈ conns) (hca : c0.arrowIndex = a) (hcs : c0.shapeIndex = s)
    (hres : scanConns anchors a s sh conns = some res) :
    (if c0.isStartPoint then res.2.1 else res.2.2) = true := by
  obtain ⟨l1, l2, rfl⟩ := List.append_of_mem hc0
  rw [scanConns, List.foldlM_append] at hres
  cases hacc1 : List.foldlM (scanStep anchors a s) (sh, false, false) l1 with
  | none => rw [hacc1] at hres; exact absurd hres (by simp)
  | some acc1 =>
    rw [hacc1] at hres
    simp only [Option.bind_eq_bind, Option.some_bind] at hres
    rw [List.foldlM_cons] at hres
    cases hstep : scanStep anchors a s acc1 c0 with
    | none => rw [hstep] at hres; exact absurd hres (by simp)
    | some acc2 =>
      rw [hstep] at hres
      simp only [Option.bind_eq_bind, Option.some_bind] at hres
      have hflag : (if c0.isStartPoint then acc2.2.1 else acc2.2.2) = true := by
        rw [scanStep, if_pos ⟨hca, hcs⟩] at hstep
        cases hg : idxGet? anchors c0.handleIndex with
        | none => rw [hg] at hstep; exact absurd hstep (by simp)
        | some p =>
          rw [hg] at hstep
          cases hcb : c0.isStartPoint <;> rw [hcb] at hstep <;>
            simp only [if_true, if_false, Bool.false_eq_true] at hstep <;>
            injection hstep with hstep <;> subst hstep <;> simp [hcb]
      refine foldlM_preserve (scanStep anchors a s)
        (fun x => (if c0.isStartPoint then x.2.1 else x.2.2) = true) l2 acc2 res hflag ?_ hres
      intro acc conn acc3 _ hp hstep2
      rw [scanStep] at hstep2
      by_cases hc : conn.arrowIndex = a ∧ conn.shapeIndex = s
      · rw [if_pos hc] at hstep2
        cases hg : idxGet? anchors conn.handleIndex with
        | none => rw [hg] at hstep2; exact absurd hstep2 (by simp)
        | some p =>
          rw [hg] at hstep2
          cases hcb : conn.isStartPoint <;> rw [hcb] at hstep2 <;>
            simp only [if_true, if_false, Bool.false_eq_true] at hstep2 <;>
            injection hstep2 with hstep2 <;> subst hstep2 <;>
            cases hcb0 : c0.isStartPoint <;> simp_all
      · rw [if_neg hc] at hstep2
        injection hstep2 with hstep2
        subst hstep2
        exact hp

/-! ### Behaviour of one second-pass step -/

theorem endpointShapeMatch_components {a : Int} {b : Bool} {s : Int} {cn : ArrowConnection}
    (h : endpointShapeMatch a b s cn = true) :
    cn.arrowIndex = a ∧ cn.isStartPoint = b ∧ cn.shapeIndex = s :=
  of_decide_eq_true h

/-- A successful second-pass step either leaves the accumulator alone
or rewrites exactly the processed index `i` (necessarily
different from the moved shape) and appends only connections whose
`arrowIndex` is `i`. -/
theorem secondPassStep_cases (s : Int) (acc : List Shape × List ArrowConnection)
    (i : Nat) (acc2 : List Shape × List ArrowConnection)
    (h : secondPassStep s acc i = some acc2) :
    (acc2 = acc) ∨
    ((i : Int) ≠ s ∧ (∃ sh3, acc2.1 = acc.1.set i sh3) ∧
      (∀ cn ∈ acc2.2, cn ∈ acc.2 ∨ cn.arrowIndex = (i : Int)) ∧
      (∀ cn ∈ acc.2, cn ∈ acc2.2)) := by
  rw [secondPassStep] at h
  cases hgi : acc.1.get? i with
  | none =>
    simp only [hgi] at h
    injection h with h
    exact Or.inl h.symm
  | some sh =>
    simp only [hgi] at h
    by_cases hskip : ((!sh.isArrow) = true ∨ (i : Int) = s)
    · rw [if_pos hskip] at h
      injection h with h
      exact Or.inl h.symm
    · rw [if_neg hskip] at h
      push_neg at hskip
      cases hscan : scanConns (((idxGet? acc.1 s).map Shape.anchorCenters).getD [])
          (i : Int) s sh acc.2 with
      | none => rw [hscan] at h; exact absurd h (by simp)
      | some x =>
        rw [hscan] at h
        injection h with h
        subst h
        refine Or.inr ⟨hskip.2, ⟨_, rfl⟩, ?_, ?_⟩
        · intro cn hcn
          rcases healEnd_conns_mem _ _ _ _ _ _ cn hcn with h2 | h2
          · rcases healStart_conns_mem _ _ _ _ _ _ _ cn h2 with h3 | h3
            · exact Or.inl h3
            · exact Or.inr h3.1
          · exact Or.inr h2.1
        · intro cn hcn
          exact healEnd_conns_sub _ _ _ _ _ _ cn (healStart_conns_sub _ _ _ _ _ _ _ cn hcn)

theorem secondPassStep_preserves_C6Nudge (s a : Int) (b : Bool) (w : Pt) (has : a = s) :
    ∀ (acc : List Shape × List ArrowConnection) (i : Nat)
      (acc2 : List Shape × List ArrowConnection),
      C6Nudge a b w acc → secondPassStep s acc i = some acc2 → C6Nudge a b w acc2 := by
  intro acc i acc2 hInv h
  rcases secondPassStep_cases s acc i acc2 h with rfl | ⟨hins, ⟨sh3, hset⟩, -, -⟩
  · exact hInv
  · obtain ⟨ar1, hga, hep⟩ := hInv
    refine ⟨ar1, ?_, hep⟩
    rw [hset, idxGet?_listSet_ne _ _ _ _ (by rw [has]; exact hins)]
    exact hga

theorem secondPassStep_preserves_C6Fault (s a : Int) (tgt : Shape) (c : ArrowConnection)
    (hca : c.arrowIndex = a) :
    ∀ (acc : List Shape × List ArrowConnection) (i : Nat)
      (acc2 : List Shape × List ArrowConnection), (i : Int) ≠ a →
      C6Fault s a tgt c acc → secondPassStep s acc i = some acc2 →
      C6Fault s a tgt c acc2 := by
  intro acc i acc2 hia hInv h
  rcases secondPassStep_cases s acc i acc2 h with rfl | ⟨hins, ⟨sh3, hset⟩, -, hsub⟩
  · exact hInv
  · obtain ⟨⟨ar1, hga, har⟩, hgs, hcmem⟩ := hInv
    refine ⟨⟨ar1, ?_, har⟩, ?_, hsub c hcmem⟩
    · rw [hset, idxGet?_listSet_ne _ _ _ _ hia]; exact hga
    · rw [hset, idxGet?_listSet_ne _ _ _ _ hins]; exact hgs

/-- On the index of an arrow whose connection to the moved shape has an
out-of-range `handleIndex`, the second-pass step performs the unguarded
anchor access and faults. -/
theorem secondPassStep_fault (s a : Int) (tgt : Shape) (c : ArrowConnection)
    (hca : c.arrowIndex = a) (hcs : c.shapeIndex = s)
    (hanch : idxGet? tgt.anchorCenters c.handleIndex = none)
    (hansa : a ≠ s) (h0 : 0 ≤ a) :
    ∀ acc : List Shape × List ArrowConnection,
      C6Fault s a tgt c acc → secondPassStep s acc a.toNat = none := by
  intro acc hInv
  obtain ⟨⟨ar1, hga, hia1⟩, hgs, hcmem⟩ := hInv
  have hcast : ((a.toNat : Nat) : Int) = a := by omega
  have hgi : acc.1.get? a.toNat = some ar1 := (idxGet?_eq_some hga).2
  rw [secondPassStep]
  simp only [hgi]
  rw [if_neg (by
    rw [not_or, hcast]
    exact ⟨by simp [hia1], hansa⟩)]
  have hanch2 : ((idxGet? acc.1 s).map Shape.anchorCenters).getD [] = tgt.anchorCenters := by
    rw [hgs]
    rfl
  rw [hanch2]
  have hscan : scanConns tgt.anchorCenters ((a.toNat : Nat) : Int) s ar1 acc.2 = none := by
    show acc.2.foldlM (scanStep tgt.anchorCenters ((a.toNat : Nat) : Int) s)
      (ar1, false, false) = none
    refine foldlM_none (scanStep tgt.anchorCenters ((a.toNat : Nat) : Int) s)
      (fun _ => True) c acc.2 (ar1, false, false) hcmem trivial ?_
      (fun _ _ _ _ _ _ => trivial)
    intro acc3 _
    rw [scanStep, if_pos ⟨by rw [hcast]; exact hca, hcs⟩, hanch]
  rw [hscan]

/-- A first-pass step leaves an entry alone unless the entry is an
arrow, in which case it stays an arrow. -/
theorem firstPassStep_entry (s : Int) (anchors : List Pt) (δ : Pt) (shapes : List Shape)
    (conn : ArrowConnection) (j : Int) (t : Shape) (hj : idxGet? shapes j = some t) :
    ∃ t2, idxGet? (firstPassStep s anchors δ shapes conn) j = some t2 ∧
      (t2 = t ∨ (t.isArrow = true ∧ t2.isArrow = true)) := by
  by_cases h1 : conn.shapeIndex = s
  · cases hga : idxGet? shapes conn.arrowIndex with
    | none =>
      refine ⟨t, ?_, Or.inl rfl⟩
      simp only [firstPassStep, if_pos h1, hga]
      exact hj
    | some sh =>
      by_cases hia2 : sh.isArrow = true
      · by_cases hje : conn.arrowIndex = j
        · have hsh : sh = t := by
            rw [hje, hj] at hga
            injection hga with hga
            exact hga.symm
          cases hanch : idxGet? anchors conn.handleIndex with
          | some p =>
            refine ⟨sh.setEndpoint conn.isStartPoint p, ?_, Or.inr ⟨?_, ?_⟩⟩
            · simp only [firstPassStep, if_pos h1, hga, hia2, hanch, if_true]
              rw [hje]
              exact idxGet?_setIdx_self shapes j _ t hj
            · rw [← hsh]; exact hia2
            · rw [setEndpoint_isArrow]; exact hia2
          | none =>
            refine ⟨sh.updateConnection conn.isStartPoint δ, ?_, Or.inr ⟨?_, ?_⟩⟩
            · simp only [firstPassStep, if_pos h1, hga, hia2, hanch, if_true]
              rw [hje]
              exact idxGet?_setIdx_self shapes j _ t hj
            · rw [← hsh]; exact hia2
            · rw [updateConnection_isArrow]; exact hia2
        · cases hanch : idxGet? anchors conn.handleIndex with
          | some p =>
            refine ⟨t, ?_, Or.inl rfl⟩
            simp only [firstPassStep, if_pos h1, hga, hia2, hanch, if_true]
            rw [idxGet?_setIdx_ne _ _ _ _ hje]
            exact hj
          | none =>
            refine ⟨t, ?_, Or.inl rfl⟩
            simp only [firstPassStep, if_pos h1, hga, hia2, hanch, if_true]
            rw [idxGet?_setIdx_ne _ _ _ _ hje]
            exact hj
      · refine ⟨t, ?_, Or.inl rfl⟩
        simp only [firstPassStep, if_pos h1, hga]
        rw [if_neg hia2]
        exact hj
  · refine ⟨t, ?_, Or.inl rfl⟩
    simp only [firstPassStep, if_neg h1]
    exact hj

theorem firstPass_entry (s : Int) (anchors : List Pt) (δ : Pt)
    (conns : List ArrowConnection) (shapes : List Shape) (j : Int) (t : Shape)
    (hj : idxGet? shapes j = some t) :
    ∃ t2, idxGet? (firstPass s anchors δ shapes conns) j = some t2 ∧
      (t2 = t ∨ (t.isArrow = true ∧ t2.isArrow = true)) := by
  refine foldl_preserve (firstPassStep s anchors δ)
    (fun l => ∃ t2, idxGet? l j = some t2 ∧ (t2 = t ∨ (t.isArrow = true ∧ t2.isArrow = true)))
    conns shapes ⟨t, hj, Or.inl rfl⟩ ?_
  intro acc x _ hp
  obtain ⟨t2, hg2, hd⟩ := hp
  obtain ⟨t3, hg3, hd3⟩ := firstPassStep_entry s anchors δ acc x j t2 hg2
  refine ⟨t3, hg3, ?_⟩
  rcases hd3 with rfl | ⟨h2a, h3a⟩
  · exact hd
  · rcases hd with rfl | ⟨hta, -⟩
    · exact Or.inr ⟨h2a, h3a⟩
    · exact Or.inr ⟨hta, h3a⟩

/-- Preservation of the valid-handle invariant by one second-pass
step. -/
theorem secondPassStep_preserves_C6Inv (s a : Int) (b : Bool) (anch : Pt) (tgt : Shape)
    (hans : a ≠ s) :
    ∀ (acc : List Shape × List ArrowConnection) (i : Nat)
      (acc2 : List Shape × List ArrowConnection),
      C6Inv s a b anch tgt acc → secondPassStep s acc i = some acc2 →
      C6Inv s a b anch tgt acc2 := by
  intro acc i acc2 hInv h
  by_cases hi : (i : Int) = a
  case neg =>
    obtain ⟨⟨ar1, hga, hia1, hep1⟩, hgs, hmatch, c0, hc0mem, hc0m⟩ := hInv
    rcases secondPassStep_cases s acc i acc2 h with rfl | ⟨hins, ⟨sh3, hset⟩, hmem, hsub⟩
    · exact ⟨⟨ar1, hga, hia1, hep1⟩, hgs, hmatch, c0, hc0mem, hc0m⟩
    · refine ⟨⟨ar1, ?_, hia1, hep1⟩, ?_, ?_, c0, hsub c0 hc0mem, hc0m⟩
      · rw [hset, idxGet?_listSet_ne _ _ _ _ hi]; exact hga
      · rw [hset, idxGet?_listSet_ne _ _ _ _ hins]; exact hgs
      · intro c2 hc2 hm
        rcases hmem c2 hc2 with h2 | h2
        · exact hmatch c2 h2 hm
        · exact absurd (h2.symm.trans (endpointShapeMatch_components hm).1) hi
  case pos =>
    obtain ⟨⟨ar1, hga, hia1, hep1⟩, hgs, hmatch, c0, hc0mem, hc0m⟩ := hInv
    rw [secondPassStep] at h
    have hgi : acc.1.get? i = some ar1 := by
      have h2 := hga
      rw [← hi, idxGet?_natCast] at h2
      exact h2
    simp only [hgi] at h
    rw [if_neg (by
      rw [not_or]
      exact ⟨by simp [hia1], by rw [hi]; exact hans⟩)] at h
    have hanch2 : ((idxGet? acc.1 s).map Shape.anchorCenters).getD [] = tgt.anchorCenters := by
      rw [hgs]
      rfl
    rw [hanch2] at h
    cases hscan : scanConns tgt.anchorCenters (i : Int) s ar1 acc.2 with
    | none => rw [hscan] at h; exact absurd h (by simp)
    | some x =>
      rw [hscan] at h
      injection h with h
      subst h
      have hmatch2 : ∀ c2 ∈ acc.2, endpointShapeMatch (i : Int) b s c2 = true →
          idxGet? tgt.anchorCenters c2.handleIndex = some anch := by
        rw [hi]
        exact hmatch
      obtain ⟨hx1, hxar⟩ :=
        scanConns_endpoint tgt.anchorCenters s (i : Int) b anch acc.2 ar1 x hmatch2 hep1 hia1 hscan
      obtain ⟨hc0a, hc0b, hc0s⟩ := endpointShapeMatch_components hc0m
      have hflag := scanConns_flag tgt.anchorCenters s (i : Int) acc.2 ar1 x c0 hc0mem
        (by rw [hc0a, hi]) hc0s hscan
      have hilen : i < acc.1.length := get?_lt_length hgi
      have hisne : (i : Int) ≠ s := by rw [hi]; exact hans
      cases b with
      | true =>
        have hsc : x.2.1 = true := by
          rw [hc0b] at hflag
          simpa using hflag
        rw [hsc, healStart_p1_of_skip]
        refine ⟨⟨_, by rw [← hi]; exact idxGet?_listSet_self acc.1 i _ hilen, ?_, ?_⟩,
          ?_, ?_, c0, ?_, hc0m⟩
        · rw [healEnd_isArrow]
          exact hxar
        · rw [endpoint_true, healEnd_p1]
          rw [endpoint_true] at hx1
          exact hx1
        · rw [idxGet?_listSet_ne _ _ _ _ hisne]
          exact hgs
        · intro c2 hc2 hm
          rcases healEnd_conns_mem _ _ _ _ _ _ c2 hc2 with h2 | h2
          · exact hmatch c2 h2 hm
          · obtain ⟨-, hcb2, -⟩ := endpointShapeMatch_components hm
            rw [h2.2] at hcb2
            exact absurd hcb2 (by simp)
        · exact healEnd_conns_sub _ _ _ _ _ _ c0 hc0mem
      | false =>
        have hec : x.2.2 = true := by
          rw [hc0b] at hflag
          simpa using hflag
        rw [hec, healEnd_of_skip]
        refine ⟨⟨_, by rw [← hi]; exact idxGet?_listSet_self acc.1 i _ hilen, ?_, ?_⟩,
          ?_, ?_, c0, ?_, hc0m⟩
        · rw [healStart_isArrow]
          exact hxar
        · rw [endpoint_false, healStart_p2]
          rw [endpoint_false] at hx1
          exact hx1
        · rw [idxGet?_listSet_ne _ _ _ _ hisne]
          exact hgs
        · intro c2 hc2 hm
          rcases healStart_conns_mem _ _ _ _ _ _ _ c2 hc2 with h2 | h2
          · exact hmatch c2 h2 hm
          · obtain ⟨-, hcb2, -⟩ := endpointShapeMatch_components hm
            rw [h2.2] at hcb2
            exact absurd hcb2 (by simp)
        · exact healStart_conns_sub _ _ _ _ _ _ _ c0 hc0mem

/-! ### The endpoint-tracking theorem (C6) -/

theorem C6_valid_aux (st : DAState) (s : Int) (δ : Pt) (c : ArrowConnection) (tgt ar : Shape)
    (anch : Pt) (st2 : DAState)
    (htgt : idxGet? st.shapes s = some tgt)
    (huniq : st.arrowConnections.filter (endpointShapeMatch c.arrowIndex c.isStartPoint s) = [c])
    (har : idxGet? st.shapes c.arrowIndex = some ar) (hia : ar.isArrow = true)
    (hansa : c.arrowIndex ≠ s)
    (hanch : idxGet? tgt.anchorCenters c.handleIndex = some anch)
    (hrun : updateConnectedArrows s δ st = some st2) :
    ∃ ar2, idxGet? st2.shapes c.arrowIndex = some ar2 ∧
      ar2.endpoint c.isStartPoint = anch := by
  rw [updateConnectedArrows] at hrun
  simp only [htgt] at hrun
  obtain ⟨res, hsp, hst2⟩ := Option.map_eq_some'.mp hrun
  obtain ⟨l1, l2, hconns, hl1, hl2, hcm⟩ :=
    filter_eq_single_split (endpointShapeMatch c.arrowIndex c.isStartPoint s)
      st.arrowConnections c huniq
  obtain ⟨-, -, hcs⟩ := endpointShapeMatch_components hcm
  have hfp := firstPass_match_valid s tgt.anchorCenters δ l1 l2 c st.shapes ar anch
    hl1 hl2 hcs har hia hanch
  rw [← hconns] at hfp
  have htgt1 := firstPass_preserves_nonarrow s tgt.anchorCenters δ st.arrowConnections
    st.shapes s tgt htgt (anchors_nonempty_not_arrow hanch)
  have hInv : C6Inv s c.arrowIndex c.isStartPoint anch tgt
      (firstPass s tgt.anchorCenters δ st.shapes st.arrowConnections, st.arrowConnections) := by
    refine ⟨hfp, htgt1, ?_, c, ?_, hcm⟩
    · intro c2 hc2 hm
      have hmem2 : c2 ∈ st.arrowConnections.filter
          (endpointShapeMatch c.arrowIndex c.isStartPoint s) :=
        List.mem_filter.mpr ⟨hc2, hm⟩
      rw [huniq, List.mem_singleton] at hmem2
      rw [hmem2]
      exact hanch
    · rw [hconns]
      exact List.mem_append.mpr (Or.inr (List.mem_cons_self c l2))
  have hres := foldlM_preserve (secondPassStep s)
    (C6Inv s c.arrowIndex c.isStartPoint anch tgt)
    (List.range (firstPass s tgt.anchorCenters δ st.shapes st.arrowConnections).length)
    (firstPass s tgt.anchorCenters δ st.shapes st.arrowConnections, st.arrowConnections)
    res hInv
    (fun acc x acc2 _ hp hs =>
      secondPassStep_preserves_C6Inv s c.arrowIndex c.isStartPoint anch tgt hansa acc x acc2 hp hs)
    hsp
  obtain ⟨⟨ar2, hg2, -, hep2⟩, -, -⟩ := hres
  refine ⟨ar2, ?_, hep2⟩
  rw [← hst2]
  exact hg2

theorem C6_invalid_aux (st : DAState) (s : Int) (δ : Pt) (c : ArrowConnection) (tgt ar : Shape)
    (st2 : DAState)
    (htgt : idxGet? st.shapes s = some tgt)
    (huniq : st.arrowConnections.filter (endpointShapeMatch c.arrowIndex c.isStartPoint s) = [c])
    (har : idxGet? st.shapes c.arrowIndex = some ar) (hia : ar.isArrow = true)
    (hanch : idxGet? tgt.anchorCenters c.handleIndex = none)
    (hrun : updateConnectedArrows s δ st = some st2) :
    ∃ ar2, idxGet? st2.shapes c.arrowIndex = some ar2 ∧
      ar2.endpoint c.isStartPoint = (ar.endpoint c.isStartPoint).add δ := by
  rw [updateConnectedArrows] at hrun
  simp only [htgt] at hrun
  obtain ⟨res, hsp, hst2⟩ := Option.map_eq_some'.mp hrun
  obtain ⟨l1, l2, hconns, hl1, hl2, hcm⟩ :=
    filter_eq_single_split (endpointShapeMatch c.arrowIndex c.isStartPoint s)
      st.arrowConnections c huniq
  obtain ⟨-, -, hcs⟩ := endpointShapeMatch_components hcm
  have hfp := firstPass_match_invalid s tgt.anchorCenters δ l1 l2 c st.shapes ar
    hl1 hl2 hcs har hia hanch
  rw [← hconns] at hfp
  by_cases hansa : c.arrowIndex = s
  · -- a degenerate self-connection: the second pass skips the moved index
    have hNudge := foldlM_preserve (secondPassStep s)
      (C6Nudge c.arrowIndex c.isStartPoint ((ar.endpoint c.isStartPoint).add δ))
      (List.range (firstPass s tgt.anchorCenters δ st.shapes st.arrowConnections).length)
      (firstPass s tgt.anchorCenters δ st.shapes st.arrowConnections, st.arrowConnections)
      res
      ⟨hfp.choose, hfp.choose_spec.1, hfp.choose_spec.2.2⟩
      (fun acc x acc2 _ hp hs =>
        secondPassStep_preserves_C6Nudge s c.arrowIndex c.isStartPoint
          ((ar.endpoint c.isStartPoint).add δ) hansa acc x acc2 hp hs)
      hsp
    obtain ⟨ar2, hg2, hep2⟩ := hNudge
    refine ⟨ar2, ?_, hep2⟩
    rw [← hst2]
    exact hg2
  · -- the second pass reaches the arrow and performs the unguarded
    -- anchor access, so the call cannot have completed
    exfalso
    have h0 : 0 ≤ c.arrowIndex := (idxGet?_eq_some har).1
    obtain ⟨tgt2, htgt2, htgt2d⟩ := firstPass_entry s tgt.anchorCenters δ st.arrowConnections
      st.shapes s tgt htgt
    have hanch2 : idxGet? tgt2.anchorCenters c.handleIndex = none := by
      rcases htgt2d with rfl | ⟨-, h2a⟩
      · exact hanch
      · rw [Shape.anchorCenters, if_pos (by simpa [Shape.isArrow] using h2a)]
        rw [idxGet?]
        split <;> simp
    have hmemr : c.arrowIndex.toNat ∈
        List.range (firstPass s tgt.anchorCenters δ st.shapes st.arrowConnections).length := by
      rw [List.mem_range, firstPass_length]
      exact get?_lt_length (idxGet?_eq_some har).2
    have hcmem : c ∈ st.arrowConnections := by
      rw [hconns]
      exact List.mem_append.mpr (Or.inr (List.mem_cons_self c l2))
    have hQ0 : C6Fault s c.arrowIndex tgt2 c
        (firstPass s tgt.anchorCenters δ st.shapes st.arrowConnections, st.arrowConnections) := by
      refine ⟨⟨hfp.choose, hfp.choose_spec.1, hfp.choose_spec.2.1⟩, htgt2, hcmem⟩
    have hnone : (List.range
        (firstPass s tgt.anchorCenters δ st.shapes st.arrowConnections).length).foldlM
        (secondPassStep s)
        (firstPass s tgt.anchorCenters δ st.shapes st.arrowConnections, st.arrowConnections) =
        none := by
      refine foldlM_none (secondPassStep s) (C6Fault s c.arrowIndex tgt2 c)
        c.arrowIndex.toNat _ _ hmemr hQ0 ?_ ?_
      · intro acc hQ
        exact secondPassStep_fault s c.arrowIndex tgt2 c rfl hcs hanch2 hansa h0 acc hQ
      · intro acc y acc2 _ hQ hs
        by_cases hya : (y : Int) = c.arrowIndex
        · exfalso
          have hyn : y = c.arrowIndex.toNat := by omega
          rw [hyn, secondPassStep_fault s c.arrowIndex tgt2 c rfl hcs hanch2 hansa h0 acc hQ]
            at hs
          exact absurd hs (by simp)
        · exact secondPassStep_preserves_C6Fault s c.arrowIndex tgt2 c rfl acc y acc2 hya hQ hs
    have hnone2 : secondPass s (firstPass s tgt.anchorCenters δ st.shapes st.arrowConnections)
        st.arrowConnections = none := hnone
    rw [hnone2] at hsp
    exact absurd hsp (by simp)

/-- C6 (amended): provided each arrow endpoint has at most one
connection binding it to the shape at index `s` (the uniqueness
invariant the specification itself postulates), whenever
`updateConnectedArrows s delta` completes without faulting, every
connection with `shapeIndex = s` whose `handleIndex` is a valid anchor
index leaves the bound arrow endpoint exactly on that anchor's current
centre (not the old position offset by delta); with an out-of-range
`handleIndex` the per-connection pass instead translates the endpoint
by `delta` — in that case the call only completes when the connection
is a degenerate self-reference, since otherwise the reconciliation pass
performs its unguarded anchor access. -/
theorem updateConnectedArrows_endpoint_tracks_anchor :
    (∀ (st : DAState) (s : Int) (δ : Pt) (c : ArrowConnection) (tgt ar : Shape)
      (anch : Pt) (st2 : DAState),
      idxGet? st.shapes s = some tgt →
      st.arrowConnections.filter (endpointShapeMatch c.arrowIndex c.isStartPoint s) = [c] →
      idxGet? st.shapes c.arrowIndex = some ar → ar.isArrow = true →
      c.arrowIndex ≠ s →
      idxGet? tgt.anchorCenters c.handleIndex = some anch →
      updateConnectedArrows s δ st = some st2 →
      ∃ ar2, idxGet? st2.shapes c.arrowIndex = some ar2 ∧
        ar2.endpoint c.isStartPoint = anch) ∧
    (∀ (st : DAState) (s : Int) (δ : Pt) (c : ArrowConnection) (tgt ar : Shape)
      (st2 : DAState),
      idxGet? st.shapes s = some tgt →
      st.arrowConnections.filter (endpointShapeMatch c.arrowIndex c.isStartPoint s) = [c] →
      idxGet? st.shapes c.arrowIndex = some ar → ar.isArrow = true →
      idxGet? tgt.anchorCenters c.handleIndex = none →
      updateConnectedArrows s δ st = some st2 →
      ∃ ar2, idxGet? st2.shapes c.arrowIndex = some ar2 ∧
        ar2.endpoint c.isStartPoint = (ar.endpoint c.isStartPoint).add δ) :=
  ⟨fun st s δ c tgt ar anch st2 htgt huniq har hia hansa hanch hrun =>
      C6_valid_aux st s δ c tgt ar anch st2 htgt huniq har hia hansa hanch hrun,
    fun st s δ c tgt ar st2 htgt huniq har hia hanch hrun =>
      C6_invalid_aux st s δ c tgt ar st2 htgt huniq har hia hanch hrun⟩

/-- Witness for C6's amended theorem: the single-connection canvas
`c6w` (endpoint tracks anchor 3 of `rectA`) and the self-referencing
canvas `c6wInvalid` (endpoint nudged by the delta). -/
theorem updateConnectedArrows_endpoint_tracks_anchor_witness :
    (∃ ar2, idxGet? ((updateConnectedArrows 0 ⟨7, 9⟩ c6w).getD c6w).shapes 1 = some ar2 ∧
      ar2.endpoint true = ⟨79, 29⟩) ∧
    (∃ ar2, idxGet?
        ((updateConnectedArrows 0 ⟨3, 4⟩ c6wInvalid).getD c6wInvalid).shapes 0 = some ar2 ∧
      ar2.endpoint true = Pt.add ⟨500, 500⟩ ⟨3, 4⟩) :=
  ⟨updateConnectedArrows_endpoint_tracks_anchor.1 c6w 0 ⟨7, 9⟩ ⟨1, 0, 3, true⟩ rectA arrowFar
      ⟨79, 29⟩ ((updateConnectedArrows 0 ⟨7, 9⟩ c6w).getD c6w)
      (by decide) (by decide) (by decide) (by decide) (by decide) (by decide) (by decide),
    updateConnectedArrows_endpoint_tracks_anchor.2 c6wInvalid 0 ⟨3, 4⟩ ⟨0, 0, 2, true⟩
      arrowFar arrowFar ((updateConnectedArrows 0 ⟨3, 4⟩ c6wInvalid).getD c6wInvalid)
      (by decide) (by decide) (by decide) (by decide) (by decide) (by decide)⟩

end MyPaint
